import Mathlib

/- Verification of the document segmentation and metadata-extraction pipeline of
`scripts/preprocessing/preprocess_local.py`.

Modelling conventions:
* Python strings are modelled as lists of characters (`Str`), matching Python's
  character-indexed strings (`len`, slicing, `split`, `join`).
* The tiktoken encoder is external to the repository, so it appears as a parameter:
  `count_tokens` wraps an encoder of type `Str → Option Nat` where `none` models a
  raised exception, and the chunker receives the resulting total counter `tc : Str → Nat`.
* The regular expressions of the source are hand-compiled into explicit character-level
  matchers (first-alternative, leftmost-match semantics, as in Python's `re`).
* Fractional thresholds (`* 1.2`, `* 1.5`, `* 0.8`) are modelled as exact rational
  comparisons via scaled integers (`5*x ≤ 6*m` for `x ≤ m*1.2`, etc.).
-/

namespace PL

abbrev Str := List Char

def chars (s : String) : Str := s.data

/-- Python `\s` (ASCII whitespace: space, tab, newline, carriage return, form feed,
vertical tab), also used for `str.strip`. -/
def wsChar (c : Char) : Bool :=
  c = ' ' || c = '\t' || c = '\n' || c = '\r' || c = Char.ofNat 12 || c = Char.ofNat 11

def alnumChar (c : Char) : Bool := c.isAlpha || c.isDigit

/-- Python `\w` (ASCII). -/
def wordChar (c : Char) : Bool := alnumChar c || c = '_'

def lowerS (s : Str) : Str := s.map Char.toLower

def lstrip (s : Str) : Str := s.dropWhile wsChar

def rstrip (s : Str) : Str := (s.reverse.dropWhile wsChar).reverse

def strip (s : Str) : Str := lstrip (rstrip s)

/-- Python `"\n".join`. -/
def joinNL : List Str → Str
  | [] => []
  | [p] => p
  | p :: q :: rest => p ++ '\n' :: joinNL (q :: rest)

/-- Python `" ".join`. -/
def joinSP : List Str → Str
  | [] => []
  | [p] => p
  | p :: q :: rest => p ++ ' ' :: joinSP (q :: rest)

/-- Python `text.split('\n')`: helper with accumulated (reversed) current piece. -/
def splitOnNLGo : Str → Str → List Str
  | acc, [] => [acc.reverse]
  | acc, '\n' :: rest => acc.reverse :: splitOnNLGo [] rest
  | acc, c :: rest => splitOnNLGo (c :: acc) rest

/-- Python `text.split('\n')`. -/
def splitOnNL (s : Str) : List Str := splitOnNLGo [] s

/-- Python `text[s:e]` (for `0 ≤ s`, `0 ≤ e`). -/
def seg (t : Str) (s e : Nat) : Str := (t.take e).drop s

/-- Python `int` on a digit string. -/
def parseNat (ds : Str) : Nat := ds.foldl (fun a c => 10 * a + (c.toNat - '0'.toNat)) 0

/-- Python `str(n)` for a natural number. -/
def natStr (n : Nat) : Str := (Nat.repr n).data

/-- `DocumentChunker.count_tokens` (lines 426-436): the encoder is the external
tiktoken `cl100k_base` encoding, modelled as a parameter; `enc text = none` models the
encoder raising, in which case (or for texts over 50000 characters) the character
estimate `len(text) // 4` is returned. -/
def count_tokens (enc : Str → Option Nat) (text : Str) : Nat :=
  if text.length > 50000 then text.length / 4
  else
    match enc text with
    | some n => n
    | none => text.length / 4

/- `DocumentChunker.ends_at_sentence_boundary` (lines 495-526).  The three `re.search`
calls all use `$`-anchored patterns, compiled here into checks on the reversed text. -/

/-- Search of `[\(\[]?[a-z0-9]+[\)\]]?\.?$` (IGNORECASE) on the reversed text:
after an optional final `.` and an optional final `)`/`]`, the last character is
alphanumeric. -/
def listItemEndRev (r : Str) : Bool :=
  let r1 := match r with
    | '.' :: t => t
    | _ => r
  let r2 := match r1 with
    | ')' :: t => t
    | ']' :: t => t
    | _ => r1
  match r2 with
  | c :: _ => alnumChar c
  | [] => false

/-- Search of `\d{4}/\d+[A-Z]*$` on the reversed text. -/
def citationEndRev (r : Str) : Bool :=
  let r1 := r.dropWhile Char.isUpper
  let ds := r1.takeWhile Char.isDigit
  match r1.drop ds.length with
  | '/' :: t => !ds.isEmpty && (t.take 4).length = 4 && (t.take 4).all Char.isDigit
  | _ => false

/-- Search of `(Article|paragraph|point)\s+\d+[a-z]?$` (IGNORECASE) on the reversed
text. -/
def refEndRev (r : Str) : Bool :=
  let r1 := match r with
    | c :: t => if c.isAlpha then t else r
    | [] => r
  let ds := r1.takeWhile Char.isDigit
  let r2 := r1.drop ds.length
  let ws := r2.takeWhile wsChar
  let r3 := r2.drop ws.length
  !ds.isEmpty && !ws.isEmpty &&
    ((chars "article").reverse.isPrefixOf (lowerS r3) ||
     (chars "paragraph").reverse.isPrefixOf (lowerS r3) ||
     (chars "point").reverse.isPrefixOf (lowerS r3))

/-- `DocumentChunker.ends_at_sentence_boundary`.  (For a nonempty text that is all
whitespace the source raises an `IndexError`; that argument never occurs in the
pipeline and is mapped to `false` here.) -/
def ends_at_sentence_boundary (text : Str) : Bool :=
  if text.isEmpty then false
  else
    let t := rstrip text
    match t.reverse with
    | [] => false
    | last :: rest =>
      if last = '.' || last = '!' || last = '?' || last = ';' then true
      else if last = ':' then true
      else if listItemEndRev (last :: rest) then true
      else if citationEndRev (last :: rest) then true
      else refEndRev (last :: rest)

/- `DocumentChunker.should_keep_together` (lines 528-568). -/

/-- Case-insensitive literal prefix match, returning the rest. -/
def matchCI (pat s : Str) : Option Str :=
  if (lowerS pat).isPrefixOf (lowerS s) then some (s.drop pat.length) else none

/-- Case-sensitive literal prefix match, returning the rest. -/
def matchCS (pat s : Str) : Option Str :=
  if pat.isPrefixOf s then some (s.drop pat.length) else none

def wsCount (s : Str) : Nat := (s.takeWhile wsChar).length

/-- Match of `\barticle\s+<num>\b` (IGNORECASE) at the current position; `prevW` says
whether the preceding character is a word character. -/
def articleRefAt (num : Str) (prevW : Bool) (s : Str) : Bool :=
  if prevW then false
  else
    match matchCI (chars "article") s with
    | none => false
    | some r =>
      let w := wsCount r
      let r2 := r.drop w
      w ≥ 1 && num.isPrefixOf r2 &&
        (match r2.drop num.length with
         | [] => true
         | c :: _ => !wordChar c)

/-- `re.search` driver for `articleRefAt`. -/
def searchArticleRef (num : Str) : Bool → Str → Bool
  | prevW, [] => articleRefAt num prevW []
  | prevW, c :: rest => articleRefAt num prevW (c :: rest) || searchArticleRef num (wordChar c) rest

/-- Match of `<word>\s+\d+\b` (IGNORECASE) at the current position. -/
def wordNumAt (w : String) (s : Str) : Bool :=
  match matchCI (chars w) s with
  | none => false
  | some r =>
    let ws := wsCount r
    let r2 := r.drop ws
    let ds := r2.takeWhile Char.isDigit
    ws ≥ 1 && !ds.isEmpty &&
      (match r2.drop ds.length with
       | [] => true
       | c :: _ => !wordChar c)

/-- Match of `\b(paragraph|subparagraph|point)\s+\d+\b` (IGNORECASE) at the current
position. -/
def paraRefAt (prevW : Bool) (s : Str) : Bool :=
  !prevW && (wordNumAt "paragraph" s || wordNumAt "subparagraph" s || wordNumAt "point" s)

/-- `re.search` driver for `paraRefAt`. -/
def searchParaRef : Bool → Str → Bool
  | prevW, [] => paraRefAt prevW []
  | prevW, c :: rest => paraRefAt prevW (c :: rest) || searchParaRef (wordChar c) rest

/-- The continuation cues of `should_keep_together` (all three `re.match` patterns are
prefix alternations). -/
def continuationWords : List String :=
  ["however", "moreover", "furthermore", "in addition", "additionally", "therefore", "thus",
   "where", "when", "if", "unless", "provided that",
   "such", "those", "these", "that", "which"]

def startsWithAny (ws : List String) (s : Str) : Bool :=
  ws.any (fun w => (chars w).isPrefixOf s)

/-- `DocumentChunker.should_keep_together` (`if not current_paras: return False`). -/
def should_keep_together (currentParas : List Str) (nextPara : Str)
    (currentArticle : Option Str) : Bool :=
  if currentParas = [] then false
  else
    if !ends_at_sentence_boundary (currentParas.getLastD []) then true
    else
      let artRef :=
        match currentArticle with
        | some a =>
          if a.isEmpty then false
          else searchArticleRef a false nextPara || searchParaRef false nextPara
        | none => false
      if artRef then true
      else startsWithAny continuationWords (strip (lowerS nextPara))

/- `DocumentChunker.calculate_overlap` (lines 570-604). -/

/-- The backward walk of `calculate_overlap` (`paragraphs` arrives reversed; `overlap`
and `tokens` are the accumulator).  `tokens + pt > target*1.5` is `2*(tokens+pt) >
3*target` and `tokens ≥ target*0.8` is `5*tokens ≥ 4*target`. -/
def overlapGo (tc : Str → Nat) (target : Nat) : List Str → List Str → Nat → List Str
  | [], overlap, _ => overlap
  | para :: rest, overlap, tokens =>
    let pt := tc para
    if !ends_at_sentence_boundary para then overlapGo tc target rest overlap tokens
    else if 2 * (tokens + pt) > 3 * target ∧ ¬overlap.isEmpty then overlap
    else
      let overlap2 := para :: overlap
      let tokens2 := tokens + pt
      if 5 * tokens2 ≥ 4 * target then overlap2
      else overlapGo tc target rest overlap2 tokens2

/-- `DocumentChunker.calculate_overlap` (`target_tokens <= 0` in ℕ is `target = 0`). -/
def calculate_overlap (tc : Str → Nat) (paragraphs : List Str) (targetTokens : Nat) :
    List Str :=
  if paragraphs.isEmpty || targetTokens = 0 then []
  else overlapGo tc targetTokens paragraphs.reverse [] 0

/- `DocumentChunker.detect_boundary` (lines 606-643) and the paragraph patterns
(lines 403-413). -/

/-- A word (case-insensitively if `ci`), then `\s+`, then one character of class `cls`:
the shape of the prefix patterns `^(Chapter|Luku)\s+\d+`, `^Section\s+\d+`,
`^(Part|Section|Chapter|Annex)\s+[IVX\d]+`. -/
def prefixWord (ci : Bool) (w : String) (cls : Char → Bool) (p : Str) : Bool :=
  match (if ci then matchCI (chars w) p else matchCS (chars w) p) with
  | none => false
  | some r =>
    let ws := wsCount r
    ws ≥ 1 &&
      (match r.drop ws with
       | c :: _ => cls c
       | [] => false)

/-- `finnish_chapter_pattern`: `^(Chapter|Luku)\s+\d+` (IGNORECASE). -/
def finnishChapterMatch (p : Str) : Bool :=
  prefixWord true "Chapter" Char.isDigit p || prefixWord true "Luku" Char.isDigit p

/-- `finnish_section_pattern`: `^(Section\s+\d+|^\d+\s*§)` (case sensitive). -/
def finnishSectionMatch (p : Str) : Bool :=
  prefixWord false "Section" Char.isDigit p ||
  (let ds := p.takeWhile Char.isDigit
   !ds.isEmpty &&
     (match (p.drop ds.length).dropWhile wsChar with
      | c :: _ => c = '§'
      | [] => false))

/-- `[IVX]` with IGNORECASE or a digit, for `framework_section_pattern`. -/
def ivxdChar (c : Char) : Bool :=
  c.isDigit || c = 'I' || c = 'V' || c = 'X' || c = 'i' || c = 'v' || c = 'x'

/-- `framework_section_pattern`: `^(Part|Section|Chapter|Annex)\s+[IVX\d]+` (IGNORECASE). -/
def frameworkSectionMatch (p : Str) : Bool :=
  prefixWord true "Part" ivxdChar p || prefixWord true "Section" ivxdChar p ||
  prefixWord true "Chapter" ivxdChar p || prefixWord true "Annex" ivxdChar p

/-- `re.search(r'(?:Section\s+)?(\d+)\s*§?', ...)`: the capture is the first maximal
digit run of the text (the optional prefix does not change the capture). -/
def firstDigitRun : Str → Option Str
  | [] => none
  | c :: rest =>
    if c.isDigit then some ((c :: rest).takeWhile Char.isDigit)
    else firstDigitRun rest

/-- Match of `Article\s+(\d+)` (case sensitive) at the current position, returning the
captured digits. -/
def articleNumAt (s : Str) : Option Str :=
  match matchCS (chars "Article") s with
  | none => none
  | some r =>
    let ws := wsCount r
    let r2 := r.drop ws
    let ds := r2.takeWhile Char.isDigit
    if ws ≥ 1 ∧ ¬ds.isEmpty then some ds else none

/-- `re.search(r'Article\s+(\d+)', ...)`. -/
def searchArticleNum : Str → Option Str
  | [] => articleNumAt []
  | c :: rest =>
    match articleNumAt (c :: rest) with
    | some ds => some ds
    | none => searchArticleNum rest

/-- Match of `\((\d+)\)` at the current position, returning the captured digits. -/
def recitalNumAt : Str → Option Str
  | '(' :: r =>
    let ds := r.takeWhile Char.isDigit
    if !ds.isEmpty && (match r.drop ds.length with
                       | ')' :: _ => true
                       | _ => false) then some ds
    else none
  | _ => none

/-- `re.search(r'\((\d+)\)', ...)`. -/
def searchRecitalNum : Str → Option Str
  | [] => recitalNumAt []
  | c :: rest =>
    match recitalNumAt (c :: rest) with
    | some ds => some ds
    | none => searchRecitalNum rest

/-- `DocumentChunker.detect_boundary`.  The three configured patterns
(`chunking.article_pattern` / `recital_pattern` / `section_pattern` of config.yaml) are
parameters, as in the source where they are read from the configuration. -/
def detect_boundary (articleP recitalP sectionP : Str → Bool) (paragraph : Str) :
    String × Option Str × List Str :=
  if finnishChapterMatch paragraph then ("chapter", none, [])
  else if finnishSectionMatch paragraph then
    ("section", (firstDigitRun paragraph).map (fun d => d ++ [' ', '§']), [])
  else if articleP paragraph then ("article", searchArticleNum paragraph, [])
  else if recitalP paragraph then
    match searchRecitalNum paragraph with
    | some d => ("recital", none, [('(' :: d) ++ [')']])
    | none => ("recital", none, [])
  else if frameworkSectionMatch paragraph then ("section", none, [])
  else if sectionP paragraph then ("section", none, [])
  else ("paragraph", none, [])

/-- Modelled from the spec: the configured `chunking.article_pattern` (config.yaml is
not among the sources).  §4.3 describes it as the EU article marker and §8 requires a
paragraph matching "Article 7" to classify as an article: `^Article\s+\d+`. -/
def specArticleP (p : Str) : Bool := prefixWord false "Article" Char.isDigit p

/-- Modelled from the spec: the configured `chunking.recital_pattern` (config.yaml is
not among the sources); §4.3 describes the recital marker `(<n>)`: `^\((\d+)\)`. -/
def specRecitalP (p : Str) : Bool := (recitalNumAt p).isSome

/-- Modelled from the spec: the configured `chunking.section_pattern` (config.yaml is
not among the sources); §4.3 describes a generic section heading marker:
`^Section\s+[IVX\d]+` (IGNORECASE). -/
def specSectionP (p : Str) : Bool := prefixWord true "Section" ivxdChar p

/- `DocumentChunker.split_at_sentences` (lines 438-493).  `re.split` with the
four-alternative separator regex
`(?<=[.!?])\s+(?=[A-Z]) | (?<=[.!?])[\n]+ | (?<=\d\))\s+(?=[A-Z]) | ;\s+(?=[A-Z])`. -/

def sentPunct (c : Option Char) : Bool := c = some '.' || c = some '!' || c = some '?'

def isUpperAfter (s : Str) (k : Nat) : Bool :=
  match s.drop k with
  | c :: _ => c.isUpper
  | [] => false

/-- One separator match of the sentence-boundary regex at the current position, with
`p2`, `p1` the two previously consumed characters (the lookbehinds); returns the
(positive) number of characters consumed.  Alternatives are tried in the source
order. -/
def sepAt (p2 p1 : Option Char) (s : Str) : Option {k : Nat // 0 < k} :=
  let w := wsCount s
  if hA : sentPunct p1 = true ∧ 0 < w ∧ isUpperAfter s w = true then some ⟨w, hA.2.1⟩
  else
    let n := (s.takeWhile (fun c => c = '\n')).length
    if hB : sentPunct p1 = true ∧ 0 < n then some ⟨n, hB.2⟩
    else if hC : (match p2 with
                  | some d => d.isDigit
                  | none => false) = true ∧ p1 = some ')' ∧ 0 < w ∧ isUpperAfter s w = true then
      some ⟨w, hC.2.2.1⟩
    else
      match s with
      | ';' :: rest =>
        let w2 := wsCount rest
        if 0 < w2 ∧ isUpperAfter rest w2 = true then some ⟨1 + w2, by omega⟩
        else none
      | _ => none

/-- The `re.split` driver: `cur` is the current piece (reversed), `acc` the pieces so
far. -/
def sentenceSplitGo (p2 p1 : Option Char) (cur : Str) (s : Str) (acc : List Str) :
    List Str :=
  match s with
  | [] => acc ++ [cur.reverse]
  | c :: rest =>
    match sepAt p2 p1 (c :: rest) with
    | some k =>
      let sep := (c :: rest).take k.1
      let p1' := sep.getLast?
      let p2' := if 2 ≤ k.1 then sep.dropLast.getLast? else p1
      sentenceSplitGo p2' p1' [] ((c :: rest).drop k.1) (acc ++ [cur.reverse])
    | none => sentenceSplitGo p1 (some c) (c :: cur) rest acc
termination_by s.length
decreasing_by
· have := k.2; simp [List.length_drop]; omega
· simp

/-- Accumulation step of `split_at_sentences` over the split pieces:
state `(chunks, current, current_tokens)`. -/
def sentAccStep (tc : Str → Nat) (maxTokens : Nat) (acc : List Str × List Str × Nat)
    (sentence : Str) : List Str × List Str × Nat :=
  let (chunks, current, curTok) := acc
  let s := strip sentence
  if s = [] then acc
  else
    let st := tc s
    if st > maxTokens then
      (if current ≠ [] then chunks ++ [joinSP current] ++ [s] else chunks ++ [s], [], 0)
    else if current ≠ [] ∧ curTok + st > maxTokens then
      (chunks ++ [joinSP current], [s], st)
    else (chunks, current ++ [s], curTok + st)

/-- `DocumentChunker.split_at_sentences`. -/
def split_at_sentences (tc : Str → Nat) (text : Str) (maxTokens : Nat) : List Str :=
  let sentences := sentenceSplitGo none none [] text []
  if sentences.length ≤ 1 then [text]
  else
    let r := sentences.foldl (sentAccStep tc maxTokens) ([], [], 0)
    if r.2.1 ≠ [] then r.1 ++ [joinSP r.2.1] else r.1

/- Data model (`ChunkMetadata`, `DocumentInfo`) and `DocumentChunker.chunk_document`
(lines 39-71, 645-863). -/

/-- The chunking configuration consumed by `chunk_document` (config.yaml keys
`processing.*` and `chunking.*`). -/
structure ChunkCfg where
  enableOverlap : Bool
  overlapTokens : Nat
  keepRelated : Bool
  maxParaTokens : Nat
  chunkTargetTokens : Nat
  minChunkTokens : Nat
  maxChunkTokens : Nat
  mergeOrphans : Bool
  orphanThreshold : Nat
  deriving DecidableEq, Repr

/-- Document-level data copied into every chunk: the fields of `DocumentInfo` together
with the metadata extracted once per document (lines 660-666). -/
structure DocMeta where
  documentId : Str
  filename : Str
  regulationName : Str
  year : Option Nat
  docType : Str
  regulationRefs : List Str
  language : String
  sourceType : String
  deriving DecidableEq, Repr

/-- `ChunkMetadata`.  `srcParas` is instrumentation absent from the source: the buffer
contents (`current_chunk_paras`) at emission, extended by the final orphan merge —
the chunk's constituent paragraphs.  `emitForced` and `emitMerged` are instrumentation
recording whether the chunk was created by the forced cohesion-override split
(line 700) and whether it absorbed the final orphan merge (lines 809-826). -/
structure Chunk where
  documentId : Str
  filename : Str
  regulationName : Str
  year : Option Nat
  docType : Str
  chunkId : Nat
  chunkType : String
  articleNumber : Option Str
  paragraphNumbers : List Str
  fullText : Str
  paragraphIndices : List (Nat × Nat)
  charStart : Nat
  charEnd : Nat
  tokenCount : Nat
  regulationRefs : List Str
  language : String
  sourceType : String
  srcParas : List Str
  emitForced : Bool
  emitMerged : Bool
  deriving DecidableEq, Repr, Inhabited

/-- The chunker parameters: the three configured boundary patterns, the token counter
(`count_tokens` with the external encoder) and the configuration. -/
structure ChunkerP where
  articleP : Str → Bool
  recitalP : Str → Bool
  sectionP : Str → Bool
  tc : Str → Nat
  cfg : ChunkCfg

/-- The loop state of `chunk_document`: `chunks`, `current_chunk_paras`,
`current_chunk_type`, `current_article`, `current_paragraph_nums`, `char_offset`. -/
structure ChunkState where
  chunks : List Chunk
  curParas : List Str
  curType : String
  curArticle : Option Str
  curParaNums : List Str
  charOffset : Nat

/-- The paragraph-index computation of `chunk_document` (lines 731-735, 794-798,
814-818): successive `(pos, pos + len p)` with `pos` advancing by `len p + 1`. -/
def paraIndices (paras : List Str) (pos : Nat) : List (Nat × Nat) :=
  match paras with
  | [] => []
  | p :: rest => (pos, pos + p.length) :: paraIndices rest (pos + p.length + 1)

/-- `DocumentChunker._create_chunk_metadata` (lines 910-954); `tc` is
`self.count_tokens`, `emitForced` instrumentation. -/
def create_chunk_metadata (tc : Str → Nat) (meta : DocMeta) (chunkId : Nat)
    (chunkText : Str) (chunkType : String) (articleNumber : Option Str)
    (paragraphNumbers : List Str) (charStart : Nat)
    (paragraphIndices : Option (List (Nat × Nat))) (srcParas : List Str)
    (emitForced : Bool) : Chunk :=
  let indices :=
    match paragraphIndices with
    | some l => l
    | none => paraIndices (splitOnNL chunkText) 0
  { documentId := meta.documentId, filename := meta.filename,
    regulationName := meta.regulationName, year := meta.year, docType := meta.docType,
    chunkId := chunkId, chunkType := chunkType, articleNumber := articleNumber,
    paragraphNumbers := paragraphNumbers, fullText := chunkText,
    paragraphIndices := indices, charStart := charStart,
    charEnd := charStart + chunkText.length, tokenCount := tc chunkText,
    regulationRefs := meta.regulationRefs, language := meta.language,
    sourceType := meta.sourceType, srcParas := srcParas, emitForced := emitForced,
    emitMerged := false }

/-- The split decision of `chunk_document` (lines 685-715): `none` = no split,
`some forced` = split, with `forced = true` for the cohesion-override forced split.
`x ≤ max*1.2` is the exact `5*x ≤ 6*max`. -/
def splitDecision (P : ChunkerP) (st : ChunkState) (paraType : String) (subPara : Str) :
    Option Bool :=
  if st.curParas = [] then none
  else
    let currentTokens := P.tc (joinNL st.curParas)
    let subTokens := P.tc subPara
    if P.cfg.keepRelated ∧ should_keep_together st.curParas subPara st.curArticle then
      if 5 * (currentTokens + subTokens) ≤ 6 * P.cfg.maxChunkTokens then none
      else some true
    else if (paraType = "article" ∨ paraType = "section") ∧
            currentTokens ≥ P.cfg.minChunkTokens then
      if ends_at_sentence_boundary (st.curParas.getLastD []) then some false else none
    else if currentTokens + subTokens > P.cfg.maxChunkTokens then some false
    else if currentTokens ≥ P.cfg.chunkTargetTokens ∧
            (paraType = "article" ∨ paraType = "recital" ∨ paraType = "section") then
      if ends_at_sentence_boundary (st.curParas.getLastD []) then some false else none
    else none

/-- Chunk text and paragraph indices at emission, with the document header injected
into the first chunk of a document (lines 719-735, 782-798). -/
def buildEmit (header : Str) (chunksEmpty : Bool) (curParas : List Str) :
    Str × List (Nat × Nat) :=
  let body := joinNL curParas
  if chunksEmpty ∧ header ≠ [] then
    (header ++ '\n' :: '\n' :: body, paraIndices curParas (header.length + 2))
  else (body, paraIndices curParas 0)

/-- Chunk emission on a mid-loop split (lines 717-764): append the chunk, advance
`char_offset`, and reset the buffer (to the overlap suffix when overlap is enabled). -/
def emitSplit (P : ChunkerP) (meta : DocMeta) (header : Str) (st : ChunkState)
    (forced : Bool) : ChunkState :=
  let te := buildEmit header st.chunks.isEmpty st.curParas
  let c := create_chunk_metadata P.tc meta st.chunks.length te.1 st.curType st.curArticle
    st.curParaNums st.charOffset (some te.2) st.curParas forced
  let newOffset := st.charOffset + te.1.length + 1
  if P.cfg.enableOverlap then
    let ov := calculate_overlap P.tc st.curParas P.cfg.overlapTokens
    { st with
      chunks := st.chunks ++ [c], curParas := ov,
      curParaNums := if ov.isEmpty then [] else st.curParaNums, charOffset := newOffset }
  else
    { st with
      chunks := st.chunks ++ [c], curParas := [], curParaNums := [],
      charOffset := newOffset }

/-- The running-context update after appending a paragraph (lines 769-778).
`article_num` truthiness is `.getD [] ≠ []`. -/
def updateTracking (st : ChunkState) (paraType : String) (articleNum : Option Str)
    (paraNums : List Str) : ChunkState :=
  if paraType = "article" ∧ articleNum.getD [] ≠ [] then
    { st with curArticle := articleNum, curType := "article" }
  else if paraType = "recital" then
    { st with curType := "recital", curParaNums := st.curParaNums ++ paraNums }
  else if paraType = "section" then { st with curType := "section" }
  else st

/-- Processing of one (sub-)paragraph: the body of the inner loop of `chunk_document`
(lines 682-778). -/
def stepSub (P : ChunkerP) (meta : DocMeta) (header : Str) (paraType : String)
    (articleNum : Option Str) (paraNums : List Str) (st : ChunkState) (subPara : Str) :
    ChunkState :=
  let st1 :=
    match splitDecision P st paraType subPara with
    | none => st
    | some forced => emitSplit P meta header st forced
  updateTracking { st1 with curParas := st1.curParas ++ [subPara] } paraType articleNum
    paraNums

/-- Processing of one source paragraph: boundary classification, oversized-paragraph
splitting, then the inner loop (lines 671-778). -/
def stepPara (P : ChunkerP) (meta : DocMeta) (header : Str) (st : ChunkState)
    (para : Str) : ChunkState :=
  let d := detect_boundary P.articleP P.recitalP P.sectionP para
  let paraTokens := P.tc para
  let subParas :=
    if paraTokens > P.cfg.maxParaTokens then split_at_sentences P.tc para P.cfg.maxParaTokens
    else [para]
  subParas.foldl (stepSub P meta header d.1 d.2.1 d.2.2) st

/-- The final chunk built from the remaining buffer (lines 832-861). -/
def finalNormalChunk (P : ChunkerP) (meta : DocMeta) (header : Str) (st : ChunkState) :
    Chunk :=
  create_chunk_metadata P.tc meta st.chunks.length
    (buildEmit header st.chunks.isEmpty st.curParas).1 st.curType st.curArticle
    st.curParaNums st.charOffset (some (buildEmit header st.chunks.isEmpty st.curParas).2)
    st.curParas false

/-- The previous chunk extended by the orphan merge (lines 810-826). -/
def mergedChunk (P : ChunkerP) (header : Str) (st : ChunkState) (prev : Chunk) : Chunk :=
  { prev with
    fullText := prev.fullText ++ '\n' :: (buildEmit header st.chunks.isEmpty st.curParas).1,
    paragraphIndices := prev.paragraphIndices ++
      paraIndices st.curParas (prev.fullText.length + 1),
    charEnd := st.charOffset + (buildEmit header st.chunks.isEmpty st.curParas).1.length,
    tokenCount := P.tc (prev.fullText ++ '\n' ::
      (buildEmit header st.chunks.isEmpty st.curParas).1),
    paragraphNumbers := prev.paragraphNumbers ++ st.curParaNums,
    srcParas := prev.srcParas ++ st.curParas, emitMerged := true }

/-- Final-buffer flush with the orphan merge (lines 781-861): the merge fires when
`merge_orphans` is set, `chunks` is non-empty and the remainder is below the orphan
threshold; `prev_chunk = chunks[-1]`.  `merged_tokens ≤ max*1.2` is the exact
`5*mergedTokens ≤ 6*max`. -/
def finalizeChunks (P : ChunkerP) (meta : DocMeta) (header : Str) (st : ChunkState) :
    List Chunk :=
  if st.curParas = [] then st.chunks
  else if P.cfg.mergeOrphans ∧ st.chunks ≠ [] ∧
      P.tc (buildEmit header st.chunks.isEmpty st.curParas).1 < P.cfg.orphanThreshold then
    if 5 * P.tc ((st.chunks.getLastD default).fullText ++ '\n' ::
        (buildEmit header st.chunks.isEmpty st.curParas).1) ≤ 6 * P.cfg.maxChunkTokens then
      st.chunks.dropLast ++ [mergedChunk P header st (st.chunks.getLastD default)]
    else st.chunks ++ [finalNormalChunk P meta header st]
  else st.chunks ++ [finalNormalChunk P meta header st]

/-- The initial loop state of `chunk_document` (lines 647-652). -/
def initState : ChunkState :=
  { chunks := [], curParas := [], curType := "mixed", curArticle := none,
    curParaNums := [], charOffset := 0 }

/-- `DocumentChunker.chunk_document` over pre-computed document metadata and header
(which the source computes once before the loop, lines 660-669). -/
def chunk_document (P : ChunkerP) (meta : DocMeta) (header : Str) (paras : List Str) :
    List Chunk :=
  finalizeChunks P meta header (paras.foldl (stepPara P meta header) initState)

/- `MetadataExtractor` (lines 218-391).  Each compiled regex is hand-translated; the
alternations below are textually unambiguous (at any position at most one alternative
matches), so first-alternative semantics coincide with trying them in order. -/

/-- Python `sub in s` (substring containment). -/
def containsSub (pat : Str) : Str → Bool
  | [] => pat.isEmpty
  | c :: rest => pat.isPrefixOf (c :: rest) || containsSub pat rest

def headIsDigit (s : Str) : Bool :=
  match s with
  | c :: _ => c.isDigit
  | [] => false

/-- Case-insensitive literal at the current position; returns the consumed length. -/
def tryLitCI (w : String) (s : Str) : Option Nat :=
  if (lowerS (chars w)).isPrefixOf (lowerS s) then some (chars w).length else none

/-- First alternative of a list of case-insensitive literals. -/
def tryFirstLitCI (ws : List String) (s : Str) : Option Nat :=
  match ws with
  | [] => none
  | w :: rest =>
    match tryLitCI w s with
    | some k => some k
    | none => tryFirstLitCI rest s

/-- `(?:No\s+)?` (IGNORECASE), returning the consumed length of the non-empty case. -/
def tryNoWs (s : Str) : Option Nat :=
  match tryLitCI "No" s with
  | none => none
  | some k =>
    let w := wsCount (s.drop k)
    if w = 0 then none else some (k + w)

/-- `(\d{4}/\d+|\d+/\d{4})`: first alternative preferred. -/
def tryRegNumber (s : Str) : Option Nat :=
  let ds := s.takeWhile Char.isDigit
  match s.drop ds.length with
  | '/' :: rest =>
    let es := rest.takeWhile Char.isDigit
    if ds.length = 4 ∧ es.length ≥ 1 then some (4 + 1 + es.length)
    else if ds.length ≥ 1 ∧ es.length ≥ 4 then some (ds.length + 1 + 4)
    else none
  | _ => none

/-- Hand-compiled `MetadataExtractor.REGULATION_PATTERN` at the current position;
returns the length of `match.group(0)`. -/
def regulationPatAt (s : Str) : Option Nat :=
  match tryFirstLitCI ["Commission", "Council", "European Parliament", "Directive",
      "Regulation", "Decision", "Corrigendum to"] s with
  | none => none
  | some k1 =>
    let r1 := s.drop k1
    let w1 := wsCount r1
    if w1 = 0 then none
    else
      let r2 := r1.drop w1
      let k2 := (tryFirstLitCI ["Implementing", "Delegated", "Amending"] r2).getD 0
      let r3 := r2.drop k2
      let w2 := wsCount r3
      let r4 := r3.drop w2
      match tryFirstLitCI ["Regulation", "Directive", "Decision"] r4 with
      | none => none
      | some k3 =>
        let r5 := r4.drop k3
        let w3 := wsCount r5
        if w3 = 0 then none
        else
          match r5.drop w3 with
          | '(' :: r6 =>
            match tryFirstLitCI ["EU", "EC", "EEC"] r6 with
            | none => none
            | some k4 =>
              match r6.drop k4 with
              | ')' :: r7 =>
                let w4 := wsCount r7
                if w4 = 0 then none
                else
                  let r8 := r7.drop w4
                  let k5 := (tryNoWs r8).getD 0
                  let r9 := r8.drop k5
                  match tryRegNumber r9 with
                  | none => none
                  | some k6 =>
                    some (k1 + w1 + k2 + w2 + k3 + w3 + 1 + k4 + 1 + w4 + k5 + k6)
              | _ => none
          | _ => none

/-- `\((\d{1,4}/\d{4})` — the parenthesized act number of `FINNISH_ACT_PATTERN`;
returns the consumed length from the opening parenthesis. -/
def actParen (u : Str) : Option Nat :=
  match u with
  | '(' :: v =>
    let r := v.takeWhile Char.isDigit
    if 1 ≤ r.length ∧ r.length ≤ 4 then
      match v.drop r.length with
      | '/' :: w =>
        if (w.take 4).length = 4 ∧ (w.take 4).all Char.isDigit then
          some (1 + r.length + 1 + 4)
        else none
      | _ => none
    else none
  | _ => none

/-- The lazy `([^(\n]+?)\s*\((\d{1,4}/\d{4})` tail of `FINNISH_ACT_PATTERN`: `n`
characters of the lazy group are already consumed; extend minimally until
`\s*\(...` matches.  Returns the total consumed length of the tail. -/
def actScan : Str → Nat → Option Nat
  | t, n =>
    let w := wsCount t
    match actParen (t.drop w) with
    | some m => some (n + w + m)
    | none =>
      match t with
      | c :: rest => if c ≠ '(' ∧ c ≠ '\n' then actScan rest (n + 1) else none
      | [] => none

/-- Hand-compiled `MetadataExtractor.FINNISH_ACT_PATTERN`
`(Laki|Act|laki)\s+(?:on\s+)?([^(\n]+?)\s*\((\d{1,4}/\d{4})` (IGNORECASE) at the
current position; returns the length of `match.group(0)`.  Case-insensitively
`laki ≡ Laki`, and the optional `on\s+` never changes the extent of `group(0)` (its
characters belong to `[^(\n]` and precede the same parenthesis), so it is not
modelled separately. -/
def finnishActPatAt (s : Str) : Option Nat :=
  match tryFirstLitCI ["Laki", "Act"] s with
  | none => none
  | some k1 =>
    let r1 := s.drop k1
    let w1 := wsCount r1
    if w1 = 0 then none
    else
      match r1.drop w1 with
      | c :: rest =>
        if c ≠ '(' ∧ c ≠ '\n' then (actScan rest 1).map (fun m => k1 + w1 + m) else none
      | [] => none

/-- `[IVX]` with IGNORECASE. -/
def ivxChar (c : Char) : Bool :=
  c = 'I' || c = 'V' || c = 'X' || c = 'i' || c = 'v' || c = 'x'

/-- Hand-compiled `MetadataExtractor.STANDARD_PATTERN`
`(Basel|IFRS|MiFID|MiFIR|CRD|CRR|BRRD|EBA|SFDR)\s*(Framework|Standard|Directive|Regulation)?\s*([IVX]+)?`
(IGNORECASE) at the current position; returns the length of `match.group(0)` (the
greedy `\s*` runs are part of the match even when the following optional group is
empty). -/
def standardPatAt (s : Str) : Option Nat :=
  match tryFirstLitCI ["Basel", "IFRS", "MiFID", "MiFIR", "CRD", "CRR", "BRRD", "EBA",
      "SFDR"] s with
  | none => none
  | some k1 =>
    let r1 := s.drop k1
    let w1 := wsCount r1
    let r2 := r1.drop w1
    let k2 := (tryFirstLitCI ["Framework", "Standard", "Directive", "Regulation"] r2).getD 0
    let r3 := r2.drop k2
    let w2 := wsCount r3
    let r4 := r3.drop w2
    let k3 := (r4.takeWhile ivxChar).length
    some (k1 + w1 + k2 + w2 + k3)

/-- Hand-compiled `MetadataExtractor.CELEX_PATTERN` `CELEX[_:]?(\d{5}[A-Z]\d{4})`
(IGNORECASE) at the current position; returns the match length and the captured
identifier. -/
def celexPatAt (s : Str) : Option (Nat × Str) :=
  match tryLitCI "CELEX" s with
  | none => none
  | some k1 =>
    let r1 := s.drop k1
    let k2 : Nat :=
      match r1 with
      | '_' :: _ => 1
      | ':' :: _ => 1
      | _ => 0
    let r2 := r1.drop k2
    let d1 := r2.take 5
    if d1.length = 5 ∧ d1.all Char.isDigit then
      match r2.drop 5 with
      | c :: r3 =>
        if c.isAlpha then
          let d2 := r3.take 4
          if d2.length = 4 ∧ d2.all Char.isDigit then
            some (k1 + k2 + 5 + 1 + 4, d1 ++ c :: d2)
          else none
        else none
      | [] => none
    else none

/-- `re.search` driver returning the matched span (`match.group(0)`). -/
def searchSpan (pat : Str → Option Nat) : Str → Option Str
  | [] =>
    match pat [] with
    | some k => some (([] : Str).take k)
    | none => none
  | c :: rest =>
    match pat (c :: rest) with
    | some k => some ((c :: rest).take k)
    | none => searchSpan pat rest

/-- `re.search` driver for the CELEX pattern, returning the captured identifier. -/
def searchCelex : Str → Option Str
  | [] => (celexPatAt []).map (·.2)
  | c :: rest =>
    match celexPatAt (c :: rest) with
    | some r => some r.2
    | none => searchCelex rest

/-- Index of the first `)` in `v`. -/
def firstCloseFrom : Str → Option Nat
  | [] => none
  | ')' :: _ => some 0
  | _ :: rest => (firstCloseFrom rest).map (· + 1)

/-- `re.search(r'^(.+?\)\s*(?:\(.+?\))?)', line)`: `group(1)` of the anchored lazy
match (used to clean national-law titles). -/
def parenTitle (l : Str) : Option Str :=
  match l with
  | [] => none
  | _ :: rest =>
    match firstCloseFrom rest with
    | none => none
    | some i =>
      let base := 1 + i + 1
      let r := l.drop base
      let w := wsCount r
      let ext : Option Nat :=
        match r.drop w with
        | '(' :: v =>
          match v with
          | [] => none
          | _ :: v2 =>
            match firstCloseFrom v2 with
            | some j => some (1 + 1 + j + 1)
            | none => none
        | _ => none
      match ext with
      | some e => some (l.take (base + w + e))
      | none => some (l.take (base + w))

/-- The national-law title scan of `extract_regulation_name` (lines 276-299), over the
first 15 lines of the truncated first paragraph. -/
def natLawTitle : List Str → Option Str
  | [] => none
  | line :: rest =>
    let l := strip line
    if l.length < 10 ∧ '(' ∈ l ∧ headIsDigit l = true then natLawTitle rest
    else if containsSub (chars "translation from") (lowerS l) ∨
            containsSub (chars "legally binding") (lowerS l) then natLawTitle rest
    else if containsSub (chars "ministry of") (lowerS l) then natLawTitle rest
    else if (containsSub (chars "Act on") l ∨ containsSub (chars "Laki") l) ∧ l.length > 20 then
      if '(' ∈ l ∧ 1 < l.count '(' then
        match parenTitle l with
        | some m => some (strip m)
        | none => some l
      else some l
    else natLawTitle rest

def isdigitStr (s : Str) : Bool := !s.isEmpty && s.all Char.isDigit

/-- The final fallback of `extract_regulation_name` (lines 325-332): first substantial
line of the full first paragraph, else its first 100 characters. -/
def fallbackLineGo : List Str → Str → Str
  | [], fullFirst => strip (fullFirst.take 100)
  | line :: rest, fullFirst =>
    let cleaned := strip line
    if cleaned.length > 20 ∧ ¬isdigitStr cleaned then cleaned.take 150
    else fallbackLineGo rest fullFirst

/-- `MetadataExtractor.extract_regulation_name`. -/
def extract_regulation_name (firstParagraph : Str) (sourceType : String) : Str :=
  let searchText := firstParagraph.take 800
  let natResult :=
    if sourceType = "national_law" then natLawTitle ((splitOnNL searchText).take 15)
    else none
  match natResult with
  | some t => t
  | none =>
    match searchSpan regulationPatAt searchText with
    | some m => m
    | none =>
      match searchSpan finnishActPatAt searchText with
      | some m => m
      | none =>
        match searchSpan standardPatAt searchText with
        | some m => m
        | none =>
          match searchCelex searchText with
          | some id => chars "CELEX " ++ id
          | none => fallbackLineGo ((splitOnNL firstParagraph).take 5) firstParagraph

/-- Match of `\b(19\d{2}|20\d{2})\b` at the current position, returning the year. -/
def yearAt (prevW : Bool) (s : Str) : Option Nat :=
  if prevW then none
  else
    match s with
    | a :: b :: c :: d :: rest =>
      if ((a = '1' ∧ b = '9') ∨ (a = '2' ∧ b = '0')) ∧ c.isDigit ∧ d.isDigit ∧
         (match rest with
          | e :: _ => ¬wordChar e
          | [] => true) = true then
        some (parseNat [a, b, c, d])
      else none
    | _ => none

/-- `YEAR_PATTERN.findall` scan loop (matches advance past the four consumed
characters).  The structural `fuel` only bounds the recursion; every step consumes at
least one character, so with `fuel = s.length` (as `findYears` passes) the fuel never
runs out. -/
def findYearsGo : Nat → Bool → Str → List Nat
  | 0, _, _ => []
  | _, _, [] => []
  | fuel + 1, prevW, c :: rest =>
    match yearAt prevW (c :: rest) with
    | some y => y :: findYearsGo fuel true (rest.drop 3)
    | none => findYearsGo fuel (wordChar c) rest

/-- `YEAR_PATTERN.findall`. -/
def findYears (prevW : Bool) (s : Str) : List Nat := findYearsGo s.length prevW s

/-- Match of `\b(19|20)\d{2}\b` at the current position, returning the *group*
`19`/`20` (only the century prefix is captured). -/
def centuryAt (prevW : Bool) (s : Str) : Option Nat :=
  if prevW then none
  else
    match s with
    | a :: b :: c :: d :: rest =>
      if ((a = '1' ∧ b = '9') ∨ (a = '2' ∧ b = '0')) ∧ c.isDigit ∧ d.isDigit ∧
         (match rest with
          | e :: _ => ¬wordChar e
          | [] => true) = true then
        some (parseNat [a, b])
      else none
    | _ => none

/-- `re.findall(r'\b(19|20)\d{2}\b', filename)` scan loop; `fuel` as in
`findYearsGo`. -/
def findCenturiesGo : Nat → Bool → Str → List Nat
  | 0, _, _ => []
  | _, _, [] => []
  | fuel + 1, prevW, c :: rest =>
    match centuryAt prevW (c :: rest) with
    | some y => y :: findCenturiesGo fuel true (rest.drop 3)
    | none => findCenturiesGo fuel (wordChar c) rest

/-- `re.findall(r'\b(19|20)\d{2}\b', filename)`. -/
def findCenturies (prevW : Bool) (s : Str) : List Nat := findCenturiesGo s.length prevW s

def maxList (l : List Nat) : Nat := l.foldl Nat.max 0

/-- `MetadataExtractor.extract_year` (lines 334-349).  Note that the filename fallback
returns `int(group)` where the group is `(19|20)` — only the century prefix. -/
def extract_year (text : Str) (filename : Str) : Option Nat :=
  let ms := findYears false text
  if ms ≠ [] then some (maxList ms)
  else
    match (findCenturies false filename).getLast? with
    | some c => some c
    | none => none

/-- A case-insensitive word then `\s+`, returning the matched text (original case)
and the rest; used for the optional groups of `DOC_TYPE_PATTERN`. -/
def tryWordWS (w : String) (s : Str) : Option (Str × Str) :=
  match tryLitCI w s with
  | none => none
  | some k =>
    let r := s.drop k
    let ws := wsCount r
    if ws = 0 then none else some (s.take k, r.drop ws)

/-- The third (mandatory) group of `DOC_TYPE_PATTERN`, returning the matched text. -/
def tryType (s : Str) : Option Str :=
  match tryFirstLitCI ["Regulation", "Directive", "Decision", "Corrigendum", "Act",
      "Laki", "Framework", "Standard"] s with
  | some k => some (s.take k)
  | none => none

/-- `(?:(Implementing|Delegated|Amending)\s+)?` then the type group, with
backtracking to the empty optional group; returns the non-empty groups. -/
def tryOpt2Type (s : Str) : Option (List Str) :=
  let withWord :=
    match tryWordWS "Implementing" s with
    | some tr => some tr
    | none =>
      match tryWordWS "Delegated" s with
      | some tr => some tr
      | none => tryWordWS "Amending" s
  match withWord with
  | some (t, r) =>
    match tryType r with
    | some ty => some [t, ty]
    | none => (tryType s).map (fun ty => [ty])
  | none => (tryType s).map (fun ty => [ty])

/-- Hand-compiled `MetadataExtractor.DOC_TYPE_PATTERN` (IGNORECASE, `^`-anchored, so
`re.search` only matches at the start); returns the non-empty captured groups. -/
def docTypePat (s : Str) : Option (List Str) :=
  let withG1 :=
    match tryWordWS "Commission" s with
    | some tr => some tr
    | none =>
      match tryWordWS "Council" s with
      | some tr => some tr
      | none =>
        match tryWordWS "European Parliament" s with
        | some tr => some tr
        | none => tryWordWS "Ministry" s
  match withG1 with
  | some (t1, r) =>
    match tryOpt2Type r with
    | some parts => some (t1 :: parts)
    | none => tryOpt2Type s
  | none => tryOpt2Type s

/-- Python `str.replace` (all occurrences, left to right) with a structural fuel;
every step consumes at least one character, so `fuel = s.length` (as `replaceAll`
passes) never runs out. -/
def replaceAllGo (pat rep : Str) : Nat → Str → Str
  | 0, s => s
  | _, [] => []
  | fuel + 1, c :: rest =>
    if pat.isPrefixOf (c :: rest) ∧ pat ≠ [] then
      rep ++ replaceAllGo pat rep fuel ((c :: rest).drop pat.length)
    else c :: replaceAllGo pat rep fuel rest

/-- Python `str.replace` (all occurrences, left to right). -/
def replaceAll (pat rep : Str) (s : Str) : Str := replaceAllGo pat rep s.length s

/-- `MetadataExtractor.extract_doc_type`. -/
def extract_doc_type (firstParagraph : Str) (sourceType : String) : Str :=
  match docTypePat firstParagraph with
  | some parts =>
    let docType := joinSP parts
    if containsSub (chars "Laki") docType ∧ ¬containsSub (chars "Act") docType then
      replaceAll (chars "Laki") (chars "Act") docType
    else docType
  | none =>
    let f5 := lowerS (firstParagraph.take 500)
    let intl : Option Str :=
      if sourceType = "international_standard" then
        if containsSub (chars "framework") f5 then some (chars "Framework")
        else if containsSub (chars "standard") f5 then some (chars "Standard")
        else if containsSub (chars "guideline") f5 then some (chars "Guideline")
        else if containsSub (chars "directive") f5 then some (chars "Directive")
        else if containsSub (chars "regulation") f5 then some (chars "Regulation")
        else none
      else none
    match intl with
    | some t => t
    | none =>
      if sourceType = "national_law" then
        if containsSub (chars "laki") f5 ∨ containsSub (chars "act") f5 then chars "Act"
        else if containsSub (chars "asetus") f5 then chars "Decree"
        else chars "Unknown"
      else chars "Unknown"

/-- Hand-compiled `MetadataExtractor.REF_PATTERN`
`\((EU|EC|EEC)\)\s+(?:No\s+)?(\d{4}/\d+|\d+/\d{4})` (IGNORECASE) at the current
position; returns the match length and the two captured groups (original case). -/
def refPatAt (s : Str) : Option (Nat × Str × Str) :=
  match s with
  | '(' :: r1 =>
    match tryFirstLitCI ["EU", "EC", "EEC"] r1 with
    | none => none
    | some k1 =>
      match r1.drop k1 with
      | ')' :: r2 =>
        let w := wsCount r2
        if w = 0 then none
        else
          let r3 := r2.drop w
          let k2 := (tryNoWs r3).getD 0
          let r4 := r3.drop k2
          match tryRegNumber r4 with
          | some k3 => some (1 + k1 + 1 + w + k2 + k3, r1.take k1, r4.take k3)
          | none => none
      | _ => none
  | _ => none

/-- `REF_PATTERN.findall` scan loop (non-overlapping; a match consumes `k ≥ 1`
characters); `fuel` as in `findYearsGo`. -/
def findRefsGo : Nat → Str → List (Str × Str)
  | 0, _ => []
  | _, [] => []
  | fuel + 1, c :: rest =>
    match refPatAt (c :: rest) with
    | some (k, g1, g2) => (g1, g2) :: findRefsGo fuel (rest.drop (k - 1))
    | none => findRefsGo fuel rest

/-- `REF_PATTERN.findall`. -/
def findRefs (s : Str) : List (Str × Str) := findRefsGo s.length s

/-- Lexicographic order on strings by character code, as Python string comparison. -/
def strLe : Str → Str → Bool
  | [], _ => true
  | _ :: _, [] => false
  | x :: xs, y :: ys => if x = y then strLe xs ys else decide (x.val < y.val)

def insSorted (x : Str) : List Str → List Str
  | [] => [x]
  | y :: ys => if strLe x y then x :: y :: ys else y :: insSorted x ys

/-- Ascending insertion sort — `sorted(...)` on a duplicate-free list. -/
def sortStrs : List Str → List Str
  | [] => []
  | x :: xs => insSorted x (sortStrs xs)

/-- `MetadataExtractor.extract_regulation_refs`: all `(EU|EC|EEC) No <number>`
citations, deduplicated and sorted. -/
def extract_regulation_refs (text : Str) : List Str :=
  let refs := (findRefs text).map (fun g => g.1 ++ chars " No " ++ g.2)
  sortStrs refs.dedup

/- `DocumentInfo`, `DocumentChunker._create_document_header` (lines 865-908) and the
per-document entry point. -/

/-- `DocumentInfo` as produced by the scanner; its `full_text` is
`"\n".join(paragraphs)` (line 142), here `docFullText`. -/
structure DocumentInfo where
  documentId : Str
  filename : Str
  paragraphs : List Str
  sourceType : String
  language : String
  deriving DecidableEq, Repr

def docFullText (d : DocumentInfo) : Str := joinNL d.paragraphs

/-- `DocumentChunker._create_document_header`.  `year` truthiness is `isSome` (years
are never 0). -/
def create_document_header (sourceType : String) (regulationName : Str)
    (year : Option Nat) (docType : Str) : Str :=
  let parts0 : List Str :=
    if regulationName ≠ [] ∧ regulationName ≠ chars "Unknown" ∧
       regulationName ≠ chars "N/A" ∧ ¬(chars "1(").isPrefixOf regulationName then
      [regulationName]
    else []
  if docType ≠ [] ∧ docType ≠ chars "Unknown" ∧ parts0 ≠ [] ∧ year.isSome then
    parts0.headD [] ++ chars " (" ++ natStr (year.getD 0) ++ chars ")"
  else
    let parts1 :=
      if docType ≠ [] ∧ docType ≠ chars "Unknown" ∧ parts0 = [] then [docType] else parts0
    let parts2 :=
      match year with
      | some y =>
        if ¬parts1.any (fun p => containsSub (natStr y) p) then
          if parts1 ≠ [] then parts1 ++ [chars "(" ++ natStr y ++ chars ")"]
          else [natStr y]
        else parts1
      | none => parts1
    let parts3 :=
      if sourceType = "national_law" then parts2 ++ [chars "[National Law]"]
      else if sourceType = "international_standard" then
        parts2 ++ [chars "[International Standard]"]
      else parts2
    joinSP parts3

/-- `chunk_document` applied to a loaded document: document-level metadata and the
header computed as in the source (lines 660-669). -/
def chunk_document_of (P : ChunkerP) (doc : DocumentInfo) : List Chunk :=
  let firstText :=
    if doc.sourceType = "national_law" then joinNL (doc.paragraphs.take 20)
    else doc.paragraphs.headD []
  let regulationName := extract_regulation_name firstText doc.sourceType
  let year := extract_year firstText doc.filename
  let docType := extract_doc_type firstText doc.sourceType
  let refs := extract_regulation_refs (docFullText doc)
  let header := create_document_header doc.sourceType regulationName year docType
  chunk_document P
    { documentId := doc.documentId, filename := doc.filename,
      regulationName := regulationName, year := year, docType := docType,
      regulationRefs := refs, language := doc.language, sourceType := doc.sourceType }
    header doc.paragraphs

/- ======================================================================
Helper lemmas: `joinNL`, `seg`, `paraIndices`, fold invariants.
====================================================================== -/

theorem joinNL_cons_cons (p q : Str) (t : List Str) :
    joinNL (p :: q :: t) = p ++ '\n' :: joinNL (q :: t) := rfl

theorem joinNL_append (A B : List Str) (hA : A ≠ []) (hB : B ≠ []) :
    joinNL (A ++ B) = joinNL A ++ '\n' :: joinNL B := by
  induction A with
  | nil => exact absurd rfl hA
  | cons p rest ih =>
    cases rest with
    | nil =>
      cases B with
      | nil => exact absurd rfl hB
      | cons b bs => simp [joinNL]
    | cons q t =>
      have h2 : (q :: t) ++ B ≠ [] := by simp
      calc joinNL ((p :: q :: t) ++ B) = p ++ '\n' :: joinNL ((q :: t) ++ B) := by
            cases h3 : (q :: t) ++ B with
            | nil => simp at h3
            | cons x xs => rw [List.cons_append, h3, joinNL_cons_cons, ← h3]
        _ = p ++ '\n' :: (joinNL (q :: t) ++ '\n' :: joinNL B) := by
            rw [ih (by simp) ]
        _ = joinNL (p :: q :: t) ++ '\n' :: joinNL B := by
            rw [joinNL_cons_cons]; simp

theorem joinNL_concat (A : List Str) (p : Str) (hA : A ≠ []) :
    joinNL (A ++ [p]) = joinNL A ++ '\n' :: p := by
  rw [joinNL_append A [p] hA (by simp)]; rfl

theorem joinNL_length_cons (p : Str) (rest : List Str) :
    (joinNL (p :: rest)).length =
      p.length + (if rest = [] then 0 else 1 + (joinNL rest).length) := by
  cases rest with
  | nil => simp [joinNL]
  | cons q t =>
    rw [joinNL_cons_cons]
    simp
    omega

theorem seg_extract (pre mid suf : Str) :
    seg (pre ++ mid ++ suf) pre.length (pre.length + mid.length) = mid := by
  unfold seg
  rw [List.append_assoc, List.take_append, List.take_append_of_le_length (le_refl _),
    List.take_length, List.drop_left]

theorem seg_prefix_stable (t suf : Str) (a b : Nat) (h : b ≤ t.length) :
    seg (t ++ suf) a b = seg t a b := by
  unfold seg
  rw [List.take_append_of_le_length h]

theorem paraIndices_cons (p : Str) (rest : List Str) (pos : Nat) :
    paraIndices (p :: rest) pos =
      (pos, pos + p.length) :: paraIndices rest (pos + p.length + 1) := rfl

theorem paraIndices_map_extract (paras : List Str) (pre suf : Str) :
    (paraIndices paras pre.length).map
      (fun q => seg (pre ++ joinNL paras ++ suf) q.1 q.2) = paras := by
  induction paras generalizing pre with
  | nil => simp [paraIndices]
  | cons p rest ih =>
    rw [paraIndices_cons, List.map_cons]
    have hhead :
        seg (pre ++ joinNL (p :: rest) ++ suf) pre.length (pre.length + p.length) = p := by
      cases rest with
      | nil => exact seg_extract pre p suf
      | cons q t =>
        have htext : pre ++ joinNL (p :: q :: t) ++ suf =
            pre ++ p ++ ('\n' :: joinNL (q :: t) ++ suf) := by
          rw [joinNL_cons_cons]; simp
        rw [htext]
        exact seg_extract pre p ('\n' :: joinNL (q :: t) ++ suf)
    have htail : (paraIndices rest (pre.length + p.length + 1)).map
        (fun q => seg (pre ++ joinNL (p :: rest) ++ suf) q.1 q.2) = rest := by
      cases rest with
      | nil => simp [paraIndices]
      | cons q t =>
        have hlen : pre.length + p.length + 1 = (pre ++ p ++ ['\n']).length := by
          simp; omega
        have htext : pre ++ joinNL (p :: q :: t) ++ suf =
            (pre ++ p ++ ['\n']) ++ joinNL (q :: t) ++ suf := by
          rw [joinNL_cons_cons]; simp
        rw [hlen, htext]
        exact ih (pre ++ p ++ ['\n'])
    rw [hhead, htail]

theorem paraIndices_bounds (paras : List Str) (pos : Nat) (q : Nat × Nat)
    (hq : q ∈ paraIndices paras pos) :
    q.1 ≤ q.2 ∧ q.2 ≤ pos + (joinNL paras).length := by
  induction paras generalizing pos with
  | nil => simp [paraIndices] at hq
  | cons p rest ih =>
    simp only [paraIndices, List.mem_cons] at hq
    rcases hq with h | h
    · subst h
      refine ⟨by simp, ?_⟩
      rw [joinNL_length_cons]
      by_cases hr : rest = []
      · simp [hr]
      · simp [hr]
    · have := ih (pos + p.length + 1) h
      rw [joinNL_length_cons]
      by_cases hr : rest = []
      · subst hr; simp [paraIndices] at h
      · simp [hr]
        omega

/-- Fold invariant with a per-element hypothesis. -/
theorem foldl_inv {α σ : Type _} (f : σ → α → σ) (Q : α → Prop) (P : σ → Prop)
    (h : ∀ s a, Q a → P s → P (f s a)) :
    ∀ (l : List α) (s : σ), (∀ a ∈ l, Q a) → P s → P (l.foldl f s) := by
  intro l
  induction l with
  | nil => intro s _ hs; exact hs
  | cons a rest ih =>
    intro s hq hs
    exact ih (f s a) (fun b hb => hq b (List.mem_cons_of_mem a hb))
      (h s a (hq a (List.mem_cons_self a rest)) hs)

/-- Fold invariant tracking the processed prefix. -/
theorem foldl_inv_pre {α σ : Type _} (f : σ → α → σ) (Q : α → Prop)
    (P : List α → σ → Prop)
    (h : ∀ pre s a, Q a → P pre s → P (pre ++ [a]) (f s a)) :
    ∀ (l pre : List α) (s : σ), (∀ a ∈ l, Q a) → P pre s → P (pre ++ l) (l.foldl f s) := by
  intro l
  induction l with
  | nil => intro pre s _ hs; simpa using hs
  | cons a rest ih =>
    intro pre s hq hs
    have := ih (pre ++ [a]) (f s a) (fun b hb => hq b (List.mem_cons_of_mem a hb))
      (h pre s a (hq a (List.mem_cons_self a rest)) hs)
    simpa using this

/- ======================================================================
C1: the reconstruction invariant.
====================================================================== -/

/-- Well-formedness of an emitted chunk: extracting `full_text[s:e]` for the recorded
paragraph indices reproduces the constituent paragraphs, and all indices lie inside
`full_text`. -/
def ChunkWF (c : Chunk) : Prop :=
  c.paragraphIndices.map (fun q => seg c.fullText q.1 q.2) = c.srcParas ∧
  ∀ q ∈ c.paragraphIndices, q.2 ≤ c.fullText.length

theorem buildEmit_false (header : Str) (paras : List Str) :
    buildEmit header false paras = (joinNL paras, paraIndices paras 0) := by
  simp [buildEmit]

theorem buildEmit_decomp (header : Str) (ce : Bool) (paras : List Str) :
    ∃ pre : Str, (buildEmit header ce paras).1 = pre ++ joinNL paras ∧
      (buildEmit header ce paras).2 = paraIndices paras pre.length := by
  by_cases h : ce = true ∧ header ≠ []
  · refine ⟨header ++ ['\n', '\n'], ?_, ?_⟩
    · unfold buildEmit
      rw [if_pos h]
      simp
    · unfold buildEmit
      rw [if_pos h]
      show paraIndices paras (header.length + 2) =
        paraIndices paras (header ++ ['\n', '\n']).length
      congr 1
      simp
  · refine ⟨[], ?_, ?_⟩
    · unfold buildEmit
      rw [if_neg h]
      simp
    · unfold buildEmit
      rw [if_neg h]
      simp

theorem create_chunk_metadata_wf (tc : Str → Nat) (meta : DocMeta) (cid : Nat)
    (text : Str) (ctype : String) (art : Option Str) (nums : List Str) (cs : Nat)
    (paras : List Str) (pre : Str) (forced : Bool) (htext : text = pre ++ joinNL paras) :
    ChunkWF (create_chunk_metadata tc meta cid text ctype art nums cs
      (some (paraIndices paras pre.length)) paras forced) := by
  constructor
  · show (paraIndices paras pre.length).map (fun q => seg text q.1 q.2) = paras
    have := paraIndices_map_extract paras pre []
    simpa [htext] using this
  · intro q hq
    show q.2 ≤ text.length
    have := (paraIndices_bounds paras pre.length q hq).2
    simp [htext]
    omega

/-- The invariant carried over the loop: every emitted chunk is well-formed. -/
def C1Inv (st : ChunkState) : Prop := ∀ c ∈ st.chunks, ChunkWF c

theorem updateTracking_chunks (st : ChunkState) (pt : String) (an : Option Str)
    (pn : List Str) : (updateTracking st pt an pn).chunks = st.chunks := by
  unfold updateTracking
  split_ifs <;> rfl

theorem emitSplit_chunks (P : ChunkerP) (meta : DocMeta) (header : Str)
    (st : ChunkState) (forced : Bool) :
    (emitSplit P meta header st forced).chunks =
      st.chunks ++ [create_chunk_metadata P.tc meta st.chunks.length
        (buildEmit header st.chunks.isEmpty st.curParas).1 st.curType st.curArticle
        st.curParaNums st.charOffset (some (buildEmit header st.chunks.isEmpty st.curParas).2)
        st.curParas forced] := by
  unfold emitSplit
  by_cases h : P.cfg.enableOverlap <;> simp [h]

theorem C1Inv_emitSplit (P : ChunkerP) (meta : DocMeta) (header : Str) (st : ChunkState)
    (forced : Bool) (h : C1Inv st) : C1Inv (emitSplit P meta header st forced) := by
  intro c hc
  rw [emitSplit_chunks] at hc
  rcases List.mem_append.mp hc with h1 | h1
  · exact h c h1
  · obtain ⟨pre, hpre1, hpre2⟩ := buildEmit_decomp header st.chunks.isEmpty st.curParas
    rcases List.mem_singleton.mp h1 with rfl
    rw [hpre2]
    exact create_chunk_metadata_wf P.tc meta st.chunks.length _ st.curType st.curArticle
      st.curParaNums st.charOffset st.curParas pre forced hpre1

theorem C1Inv_stepSub (P : ChunkerP) (meta : DocMeta) (header : Str) (pt : String)
    (an : Option Str) (pn : List Str) (st : ChunkState) (p : Str) (h : C1Inv st) :
    C1Inv (stepSub P meta header pt an pn st p) := by
  unfold stepSub
  cases splitDecision P st pt p with
  | none =>
    intro c hc
    rw [updateTracking_chunks] at hc
    exact h c hc
  | some forced =>
    intro c hc
    rw [updateTracking_chunks] at hc
    exact C1Inv_emitSplit P meta header st forced h c hc

theorem C1Inv_stepPara (P : ChunkerP) (meta : DocMeta) (header : Str) (st : ChunkState)
    (p : Str) (h : C1Inv st) : C1Inv (stepPara P meta header st p) := by
  unfold stepPara
  exact foldl_inv _ (fun _ => True) C1Inv
    (fun s a _ hs => C1Inv_stepSub P meta header _ _ _ s a hs) _ st (fun _ _ => trivial) h

theorem mem_of_mem_dropLast {α : Type _} {l : List α} {a : α} (h : a ∈ l.dropLast) :
    a ∈ l :=
  (List.dropLast_sublist l).subset h

theorem mem_of_getLast?_eq {α : Type _} {l : List α} {a : α} (h : l.getLast? = some a) :
    a ∈ l := by
  have h2 := List.dropLast_append_getLast? a h
  rw [← h2]
  exact List.mem_append_right _ (by simp)

theorem ChunkWF_finalNormalChunk (P : ChunkerP) (meta : DocMeta) (header : Str)
    (st : ChunkState) : ChunkWF (finalNormalChunk P meta header st) := by
  obtain ⟨pre, hpre1, hpre2⟩ := buildEmit_decomp header st.chunks.isEmpty st.curParas
  unfold finalNormalChunk
  rw [hpre2]
  exact create_chunk_metadata_wf P.tc meta st.chunks.length _ st.curType st.curArticle
    st.curParaNums st.charOffset st.curParas pre false hpre1

/-- Well-formedness of the merged chunk in the final orphan merge (the merge only
happens with a non-empty chunk list, so no header is injected into the orphan text). -/
theorem ChunkWF_mergedChunk (P : ChunkerP) (header : Str) (st : ChunkState) (prev : Chunk)
    (hprev : ChunkWF prev) (hne : st.chunks ≠ []) :
    ChunkWF (mergedChunk P header st prev) := by
  have hfalse : st.chunks.isEmpty = false := by simpa [List.isEmpty_iff] using hne
  have hbe : (buildEmit header st.chunks.isEmpty st.curParas).1 = joinNL st.curParas := by
    rw [hfalse, buildEmit_false]
  constructor
  · show (prev.paragraphIndices ++ paraIndices st.curParas (prev.fullText.length + 1)).map
      (fun q => seg (prev.fullText ++ '\n' ::
        (buildEmit header st.chunks.isEmpty st.curParas).1) q.1 q.2) =
      prev.srcParas ++ st.curParas
    rw [List.map_append]
    congr 1
    · have hstab : ∀ q ∈ prev.paragraphIndices,
          seg (prev.fullText ++ '\n' :: (buildEmit header st.chunks.isEmpty st.curParas).1)
            q.1 q.2 = seg prev.fullText q.1 q.2 :=
        fun q hq => seg_prefix_stable prev.fullText _ q.1 q.2 (hprev.2 q hq)
      rw [List.map_congr_left hstab]
      exact hprev.1
    · have hlen : prev.fullText.length + 1 = (prev.fullText ++ ['\n']).length := by simp
      have htxt : prev.fullText ++ '\n' :: (buildEmit header st.chunks.isEmpty st.curParas).1 =
          (prev.fullText ++ ['\n']) ++ joinNL st.curParas ++ [] := by
        simp [hbe]
      rw [hlen, htxt]
      exact paraIndices_map_extract st.curParas (prev.fullText ++ ['\n']) []
  · intro q hq
    show q.2 ≤ (prev.fullText ++ '\n' ::
      (buildEmit header st.chunks.isEmpty st.curParas).1).length
    rcases List.mem_append.mp hq with h1 | h1
    · have := hprev.2 q h1
      simp
      omega
    · have := (paraIndices_bounds st.curParas (prev.fullText.length + 1) q h1).2
      simp [hbe]
      omega

theorem getLastD_mem_of_ne_nil {α : Type _} [Inhabited α] {l : List α} (h : l ≠ []) :
    l.getLastD default ∈ l := by
  rw [List.getLastD_eq_getLast?]
  rw [List.getLast?_eq_getLast_of_ne_nil h]
  exact List.getLast_mem h

theorem C1Inv_finalize (P : ChunkerP) (meta : DocMeta) (header : Str) (st : ChunkState)
    (h : C1Inv st) : ∀ c ∈ finalizeChunks P meta header st, ChunkWF c := by
  intro c hc
  unfold finalizeChunks at hc
  split at hc
  · exact h c hc
  · split at hc
    · rename_i hm
      split at hc
      · rcases List.mem_append.mp hc with h1 | h1
        · exact h c (mem_of_mem_dropLast h1)
        · rcases List.mem_singleton.mp h1 with rfl
          exact ChunkWF_mergedChunk P header st _
            (h _ (getLastD_mem_of_ne_nil hm.2.1)) hm.2.1
      · rcases List.mem_append.mp hc with h1 | h1
        · exact h c h1
        · rcases List.mem_singleton.mp h1 with rfl
          exact ChunkWF_finalNormalChunk P meta header st
    · rcases List.mem_append.mp hc with h1 | h1
      · exact h c h1
      · rcases List.mem_singleton.mp h1 with rfl
        exact ChunkWF_finalNormalChunk P meta header st

/-- C1.  For every chunk emitted by `chunk_document` — the injected first-chunk header
and the final orphan merge included — extracting `full_text[s:e]` for the recorded
`paragraph_indices` reproduces exactly the chunk's constituent paragraphs (the buffer
contents at emission, extended by a merge). -/
theorem chunk_reconstruction (P : ChunkerP) (meta : DocMeta) (header : Str)
    (paras : List Str) (c : Chunk) (hc : c ∈ chunk_document P meta header paras) :
    c.paragraphIndices.map (fun q => seg c.fullText q.1 q.2) = c.srcParas := by
  have hinv : C1Inv (paras.foldl (stepPara P meta header) initState) := by
    refine foldl_inv _ (fun _ => True) C1Inv
      (fun s a _ hs => C1Inv_stepPara P meta header s a hs) paras initState
      (fun _ _ => trivial) ?_
    intro c hc
    simp [initState] at hc
  exact (C1Inv_finalize P meta header _ hinv c hc).1

/- ======================================================================
C3: no paragraph loss (amended: overlap disabled, no oversized paragraphs).
====================================================================== -/

/-- All constituent paragraphs of a chunk list, in chunk order and within-chunk
order. -/
def allParas (cs : List Chunk) : List Str := (cs.map Chunk.srcParas).flatten

theorem allParas_append (A B : List Chunk) : allParas (A ++ B) = allParas A ++ allParas B := by
  simp [allParas]

theorem allParas_singleton (c : Chunk) : allParas [c] = c.srcParas := by
  simp [allParas]

theorem create_chunk_metadata_srcParas (tc : Str → Nat) (meta : DocMeta) (cid : Nat)
    (text : Str) (ctype : String) (art : Option Str) (nums : List Str) (cs : Nat)
    (idx : Option (List (Nat × Nat))) (paras : List Str) (forced : Bool) :
    (create_chunk_metadata tc meta cid text ctype art nums cs idx paras forced).srcParas =
      paras := rfl

theorem updateTracking_curParas (st : ChunkState) (pt : String) (an : Option Str)
    (pn : List Str) : (updateTracking st pt an pn).curParas = st.curParas := by
  unfold updateTracking
  split_ifs <;> rfl

theorem emitSplit_curParas_no_overlap (P : ChunkerP) (meta : DocMeta) (header : Str)
    (st : ChunkState) (forced : Bool) (hov : P.cfg.enableOverlap = false) :
    (emitSplit P meta header st forced).curParas = [] := by
  simp [emitSplit, hov]

/-- The fold invariant for paragraph preservation: chunks' constituent paragraphs
followed by the live buffer are exactly the processed paragraphs. -/
def C3Inv (processed : List Str) (st : ChunkState) : Prop :=
  allParas st.chunks ++ st.curParas = processed

theorem stepPara_eq_of_small (P : ChunkerP) (meta : DocMeta) (header : Str)
    (st : ChunkState) (para : Str) (h : ¬P.tc para > P.cfg.maxParaTokens) :
    stepPara P meta header st para =
      stepSub P meta header (detect_boundary P.articleP P.recitalP P.sectionP para).1
        (detect_boundary P.articleP P.recitalP P.sectionP para).2.1
        (detect_boundary P.articleP P.recitalP P.sectionP para).2.2 st para := by
  unfold stepPara
  simp only [if_neg h]
  rfl

theorem C3Inv_stepSub (P : ChunkerP) (meta : DocMeta) (header : Str) (pt : String)
    (an : Option Str) (pn : List Str) (st : ChunkState) (p : Str) (pre : List Str)
    (hov : P.cfg.enableOverlap = false) (h : C3Inv pre st) :
    C3Inv (pre ++ [p]) (stepSub P meta header pt an pn st p) := by
  unfold stepSub
  cases splitDecision P st pt p with
  | none =>
    show C3Inv _ (updateTracking _ pt an pn)
    unfold C3Inv at h ⊢
    rw [updateTracking_chunks, updateTracking_curParas]
    show allParas st.chunks ++ (st.curParas ++ [p]) = pre ++ [p]
    rw [← List.append_assoc, h]
  | some forced =>
    show C3Inv _ (updateTracking _ pt an pn)
    unfold C3Inv at h ⊢
    rw [updateTracking_chunks, updateTracking_curParas]
    show allParas (emitSplit P meta header st forced).chunks ++
      ((emitSplit P meta header st forced).curParas ++ [p]) = pre ++ [p]
    rw [emitSplit_chunks, emitSplit_curParas_no_overlap P meta header st forced hov,
      allParas_append, allParas_singleton, create_chunk_metadata_srcParas]
    simp only [List.nil_append]
    rw [List.append_assoc, ← h]
    simp

theorem dropLast_append_getLastD {α : Type _} [Inhabited α] {l : List α} (h : l ≠ []) :
    l.dropLast ++ [l.getLastD default] = l := by
  rw [List.getLastD_eq_getLast?]
  rw [List.getLast?_eq_getLast_of_ne_nil h]
  exact List.dropLast_append_getLast h

theorem mergedChunk_srcParas (P : ChunkerP) (header : Str) (st : ChunkState)
    (prev : Chunk) :
    (mergedChunk P header st prev).srcParas = prev.srcParas ++ st.curParas := rfl

theorem finalNormalChunk_srcParas (P : ChunkerP) (meta : DocMeta) (header : Str)
    (st : ChunkState) : (finalNormalChunk P meta header st).srcParas = st.curParas := rfl

theorem allParas_finalize (P : ChunkerP) (meta : DocMeta) (header : Str)
    (st : ChunkState) :
    allParas (finalizeChunks P meta header st) = allParas st.chunks ++ st.curParas := by
  unfold finalizeChunks
  split
  · rename_i hcur
    rw [hcur]
    simp
  · split
    · rename_i hm
      split
      · rw [allParas_append, allParas_singleton, mergedChunk_srcParas]
        conv_rhs => rw [← dropLast_append_getLastD hm.2.1]
        rw [allParas_append, allParas_singleton]
        simp
      · rw [allParas_append, allParas_singleton, finalNormalChunk_srcParas]
    · rw [allParas_append, allParas_singleton, finalNormalChunk_srcParas]

/-- C3 (amended).  With overlap disabled and no paragraph exceeding the
sentence-splitting ceiling, concatenating all emitted chunks' constituent paragraphs
in order reproduces the document's paragraph sequence exactly (the injected header is
not among the constituent paragraphs). -/
theorem no_paragraph_loss_amended (P : ChunkerP) (meta : DocMeta) (header : Str)
    (paras : List Str) (hov : P.cfg.enableOverlap = false)
    (hsmall : ∀ p ∈ paras, P.tc p ≤ P.cfg.maxParaTokens) :
    allParas (chunk_document P meta header paras) = paras := by
  unfold chunk_document
  rw [allParas_finalize]
  have hinv : C3Inv paras (paras.foldl (stepPara P meta header) initState) := by
    have := foldl_inv_pre (stepPara P meta header)
      (fun p => P.tc p ≤ P.cfg.maxParaTokens) C3Inv
      (fun pre s a ha hs => by
        rw [stepPara_eq_of_small P meta header s a (by omega)]
        exact C3Inv_stepSub P meta header _ _ _ s a pre hov hs)
      paras [] initState hsmall (by simp [C3Inv, initState, allParas])
    simpa using this
  exact hinv

/- ======================================================================
C2: the token bound (amended).
====================================================================== -/

theorem buildEmit_nil_header (ce : Bool) (paras : List Str) :
    buildEmit [] ce paras = (joinNL paras, paraIndices paras 0) := by
  unfold buildEmit
  simp

theorem create_chunk_metadata_tokenCount (tc : Str → Nat) (meta : DocMeta) (cid : Nat)
    (text : Str) (ctype : String) (art : Option Str) (nums : List Str) (cs : Nat)
    (idx : Option (List (Nat × Nat))) (paras : List Str) (forced : Bool) :
    (create_chunk_metadata tc meta cid text ctype art nums cs idx paras forced).tokenCount =
      tc text := rfl

/-- If `should_keep_together` is false on a non-empty buffer, the buffer's last
paragraph ends at a sentence boundary. -/
theorem should_keep_false_endsAt (cur : List Str) (p : Str) (art : Option Str)
    (hcur : cur ≠ []) (h : should_keep_together cur p art = false) :
    ends_at_sentence_boundary (cur.getLastD []) = true := by
  unfold should_keep_together at h
  rw [if_neg hcur] at h
  by_cases he : ends_at_sentence_boundary (cur.getLastD []) = true
  · exact he
  · have hfalse : ends_at_sentence_boundary (cur.getLastD []) = false := by
      simpa using he
    rw [hfalse] at h
    simp at h

theorem splitDecision_some_ne_nil (P : ChunkerP) (st : ChunkState) (pt : String)
    (p : Str) (forced : Bool) (h : splitDecision P st pt p = some forced) :
    st.curParas ≠ [] := by
  intro hemp
  unfold splitDecision at h
  rw [if_pos hemp] at h
  simp at h

/-- Consequences of "no split" under `keep_related_articles`: either the
cohesion-override tolerance or the hard token limit was respected. -/
theorem splitDecision_none_bound (P : ChunkerP) (st : ChunkState) (pt : String) (p : Str)
    (hkeep : P.cfg.keepRelated = true) (hcur : st.curParas ≠ [])
    (hnone : splitDecision P st pt p = none) :
    5 * (P.tc (joinNL st.curParas) + P.tc p) ≤ 6 * P.cfg.maxChunkTokens ∨
    P.tc (joinNL st.curParas) + P.tc p ≤ P.cfg.maxChunkTokens := by
  unfold splitDecision at hnone
  rw [if_neg hcur] at hnone
  simp only at hnone
  by_cases hA : P.cfg.keepRelated = true ∧
      should_keep_together st.curParas p st.curArticle = true
  · rw [if_pos hA] at hnone
    left
    by_cases hB : 5 * (P.tc (joinNL st.curParas) + P.tc p) ≤ 6 * P.cfg.maxChunkTokens
    · exact hB
    · rw [if_neg hB] at hnone
      exact absurd hnone (by simp)
  · rw [if_neg hA] at hnone
    have hsk : should_keep_together st.curParas p st.curArticle = false := by
      rcases Bool.eq_false_or_eq_true (should_keep_together st.curParas p st.curArticle)
        with h1 | h1
      · exact absurd ⟨hkeep, h1⟩ hA
      · exact h1
    have hend : ends_at_sentence_boundary (st.curParas.getLastD []) = true :=
      should_keep_false_endsAt st.curParas p st.curArticle hcur hsk
    by_cases hC : (pt = "article" ∨ pt = "section") ∧
        P.tc (joinNL st.curParas) ≥ P.cfg.minChunkTokens
    · rw [if_pos hC, if_pos hend] at hnone
      exact absurd hnone (by simp)
    · rw [if_neg hC] at hnone
      by_cases hD : P.tc (joinNL st.curParas) + P.tc p > P.cfg.maxChunkTokens
      · rw [if_pos hD] at hnone
        exact absurd hnone (by simp)
      · right
        omega

/-- The fold invariant for the token bound: the live buffer (if any) and every chunk
emitted so far are within `max_chunk_tokens * 1.2`. -/
def C2Inv (P : ChunkerP) (st : ChunkState) : Prop :=
  (st.curParas = [] ∨ 5 * P.tc (joinNL st.curParas) ≤ 6 * P.cfg.maxChunkTokens) ∧
  ∀ c ∈ st.chunks, 5 * c.tokenCount ≤ 6 * P.cfg.maxChunkTokens

theorem C2Inv_stepSub (P : ChunkerP) (meta : DocMeta) (pt : String)
    (an : Option Str) (pn : List Str) (st : ChunkState) (p : Str)
    (hkeep : P.cfg.keepRelated = true) (hov : P.cfg.enableOverlap = false)
    (hadd : ∀ a b, P.tc (a ++ '\n' :: b) = P.tc a + P.tc b)
    (hp : P.tc p ≤ P.cfg.maxChunkTokens) (h : C2Inv P st) :
    C2Inv P (stepSub P meta [] pt an pn st p) := by
  have hjoin : ∀ A : List Str, A ≠ [] →
      P.tc (joinNL (A ++ [p])) = P.tc (joinNL A) + P.tc p := by
    intro A hA
    rw [joinNL_concat A p hA]
    exact hadd (joinNL A) p
  unfold stepSub
  cases hd : splitDecision P st pt p with
  | none =>
    constructor
    · rw [updateTracking_curParas]
      show (st.curParas ++ [p] = [] ∨ _)
      right
      by_cases hc : st.curParas = []
      · rw [hc]
        show 5 * P.tc (joinNL [p]) ≤ _
        have hj : joinNL [p] = p := rfl
        rw [hj]
        omega
      · rw [hjoin st.curParas hc]
        rcases splitDecision_none_bound P st pt p hkeep hc hd with h1 | h1
        · exact h1
        · omega
    · intro c hc
      rw [updateTracking_chunks] at hc
      exact h.2 c hc
  | some forced =>
    have hne : st.curParas ≠ [] := splitDecision_some_ne_nil P st pt p forced hd
    have hbuf : 5 * P.tc (joinNL st.curParas) ≤ 6 * P.cfg.maxChunkTokens := by
      rcases h.1 with h1 | h1
      · exact absurd h1 hne
      · exact h1
    constructor
    · rw [updateTracking_curParas]
      show ((emitSplit P meta [] st forced).curParas ++ [p] = [] ∨ _)
      right
      rw [emitSplit_curParas_no_overlap P meta [] st forced hov]
      show 5 * P.tc (joinNL ([] ++ [p])) ≤ _
      simp only [List.nil_append]
      show 5 * P.tc (joinNL [p]) ≤ _
      have : joinNL [p] = p := rfl
      rw [this]
      omega
    · intro c hc
      rw [updateTracking_chunks] at hc
      rw [emitSplit_chunks] at hc
      rcases List.mem_append.mp hc with h1 | h1
      · exact h.2 c h1
      · rcases List.mem_singleton.mp h1 with rfl
        rw [create_chunk_metadata_tokenCount]
        rw [show (buildEmit [] st.chunks.isEmpty st.curParas).1 = joinNL st.curParas from
          by rw [buildEmit_nil_header]]
        exact hbuf

theorem C2Inv_finalize (P : ChunkerP) (meta : DocMeta) (st : ChunkState)
    (h : C2Inv P st) :
    ∀ c ∈ finalizeChunks P meta [] st, 5 * c.tokenCount ≤ 6 * P.cfg.maxChunkTokens := by
  intro c hc
  have hnormal : 5 * (finalNormalChunk P meta [] st).tokenCount ≤
      6 * P.cfg.maxChunkTokens → c ∈ st.chunks ++ [finalNormalChunk P meta [] st] →
      5 * c.tokenCount ≤ 6 * P.cfg.maxChunkTokens := by
    intro hb hm
    rcases List.mem_append.mp hm with h1 | h1
    · exact h.2 c h1
    · rcases List.mem_singleton.mp h1 with rfl
      exact hb
  unfold finalizeChunks at hc
  split at hc
  · exact h.2 c hc
  · rename_i hcur
    have hbuf : 5 * P.tc (joinNL st.curParas) ≤ 6 * P.cfg.maxChunkTokens := by
      rcases h.1 with h1 | h1
      · exact absurd h1 hcur
      · exact h1
    have hnb : 5 * (finalNormalChunk P meta [] st).tokenCount ≤ 6 * P.cfg.maxChunkTokens := by
      unfold finalNormalChunk
      rw [create_chunk_metadata_tokenCount]
      rw [show (buildEmit [] st.chunks.isEmpty st.curParas).1 = joinNL st.curParas from
        by rw [buildEmit_nil_header]]
      exact hbuf
    split at hc
    · split at hc
      · rename_i hbound
        rcases List.mem_append.mp hc with h1 | h1
        · exact h.2 c (mem_of_mem_dropLast h1)
        · rcases List.mem_singleton.mp h1 with rfl
          exact hbound
      · exact hnormal hnb hc
    · exact hnormal hnb hc

/-- C2 (amended).  Under `keep_related_articles`, with overlap disabled, no injected
header, a token counter additive across newline joins, and each paragraph within both
`max_chunk_tokens` and `max_paragraph_tokens`: every emitted chunk — by whatever rule
it was created — has `token_count ≤ max_chunk_tokens * 1.2` (scaled:
`5*token_count ≤ 6*max`). -/
theorem token_bound_amended (P : ChunkerP) (meta : DocMeta) (paras : List Str)
    (hkeep : P.cfg.keepRelated = true) (hov : P.cfg.enableOverlap = false)
    (hadd : ∀ a b, P.tc (a ++ '\n' :: b) = P.tc a + P.tc b)
    (hparas : ∀ p ∈ paras, P.tc p ≤ P.cfg.maxChunkTokens ∧ P.tc p ≤ P.cfg.maxParaTokens)
    (c : Chunk) (hc : c ∈ chunk_document P meta [] paras) :
    5 * c.tokenCount ≤ 6 * P.cfg.maxChunkTokens := by
  unfold chunk_document at hc
  have hinv : C2Inv P (paras.foldl (stepPara P meta []) initState) := by
    refine foldl_inv (stepPara P meta [])
      (fun p => P.tc p ≤ P.cfg.maxChunkTokens ∧ P.tc p ≤ P.cfg.maxParaTokens) (C2Inv P)
      (fun s a ha hs => ?_) paras initState hparas ?_
    · rw [stepPara_eq_of_small P meta [] s a (by omega)]
      exact C2Inv_stepSub P meta _ _ _ s a hkeep hov hadd ha.1 hs
    · constructor
      · left
        rfl
      · intro c hc
        simp [initState] at hc
  exact C2Inv_finalize P meta _ hinv c hc

/- ======================================================================
C4: char_start/char_end as offsets into the document text (amended: no header,
overlap disabled, no oversized paragraphs).
====================================================================== -/

theorem seg_zero_len (t : Str) : seg t 0 t.length = t := by
  simp [seg]

theorem allParas_cons (c : Chunk) (rest : List Chunk) :
    allParas (c :: rest) = c.srcParas ++ allParas rest := by
  simp [allParas]

theorem allParas_ne_nil {cs : List Chunk} (hne : cs ≠ [])
    (h : ∀ c ∈ cs, c.srcParas ≠ []) : allParas cs ≠ [] := by
  cases cs with
  | nil => exact absurd rfl hne
  | cons c rest =>
    have hc := h c (List.mem_cons_self c rest)
    rw [allParas_cons]
    intro hx
    exact hc (List.append_eq_nil.mp hx).1

theorem seg_append_block (X B : List Str) (hX : X ≠ []) (hB : B ≠ []) :
    seg (joinNL (X ++ B)) ((joinNL X).length + 1)
      ((joinNL X).length + 1 + (joinNL B).length) = joinNL B := by
  have h1 : joinNL (X ++ B) = (joinNL X ++ ['\n']) ++ joinNL B ++ [] := by
    rw [joinNL_append X B hX hB]
    simp
  have h2 : (joinNL X).length + 1 = (joinNL X ++ ['\n']).length := by simp
  rw [h1, h2]
  exact seg_extract (joinNL X ++ ['\n']) (joinNL B) []

theorem joinNL_append_length (X B : List Str) (hX : X ≠ []) (hB : B ≠ []) :
    (joinNL (X ++ B)).length = (joinNL X).length + 1 + (joinNL B).length := by
  rw [joinNL_append X B hX hB]
  simp
  omega

/-- The fold invariant for document offsets: constituent paragraphs partition the
processed prefix; every chunk's text is the slice of the processed text at
`[char_start, char_end)`; `char_offset` points one past the emitted text. -/
def C4Inv (processed : List Str) (st : ChunkState) : Prop :=
  allParas st.chunks ++ st.curParas = processed ∧
  (∀ c ∈ st.chunks, c.srcParas ≠ [] ∧ c.fullText = joinNL c.srcParas ∧
    c.charEnd = c.charStart + c.fullText.length ∧
    c.charEnd ≤ (joinNL processed).length ∧
    seg (joinNL processed) c.charStart c.charEnd = c.fullText) ∧
  st.charOffset = (joinNL (allParas st.chunks)).length +
    (if st.chunks = [] then 0 else 1) ∧
  (st.chunks ≠ [] → (st.chunks.getLastD default).charEnd + 1 = st.charOffset)

theorem C4Inv_extend (processed : List Str) (p : Str) (st : ChunkState)
    (h : C4Inv processed st) : C4Inv (processed ++ [p])
      { st with curParas := st.curParas ++ [p] } := by
  obtain ⟨hA, hB, hC, hE⟩ := h
  have hproc : st.chunks ≠ [] → processed ≠ [] := by
    intro hne hemp
    have hX := allParas_ne_nil hne (fun c hc => (hB c hc).1)
    rw [hemp] at hA
    exact hX (List.append_eq_nil.mp hA).1
  refine ⟨?_, ?_, hC, hE⟩
  · show allParas st.chunks ++ (st.curParas ++ [p]) = processed ++ [p]
    rw [← List.append_assoc, hA]
  · intro c hc
    obtain ⟨h1, h2, h3, h4, h5⟩ := hB c hc
    refine ⟨h1, h2, h3, ?_, ?_⟩
    · by_cases hne : st.chunks = []
      · rw [hne] at hc
        simp at hc
      · rw [joinNL_concat processed p (hproc hne)]
        simp
        omega
    · by_cases hne : st.chunks = []
      · rw [hne] at hc
        simp at hc
      · rw [joinNL_concat processed p (hproc hne)]
        rw [show joinNL processed ++ '\n' :: p = joinNL processed ++ ('\n' :: p) from rfl]
        rw [seg_prefix_stable _ _ _ _ h4]
        exact h5

/-- After an emission with an empty header the appended chunk satisfies the offset
invariant; shared by the mid-loop split and the final flush. -/
theorem C4Inv_emit_chunk (st : ChunkState)
    (processed : List Str) (h : C4Inv processed st) (hcur : st.curParas ≠ [])
    (c0 : Chunk) (hft : c0.fullText = joinNL st.curParas)
    (hsp : c0.srcParas = st.curParas) (hcs : c0.charStart = st.charOffset)
    (hce : c0.charEnd = c0.charStart + c0.fullText.length) :
    c0.srcParas ≠ [] ∧ c0.fullText = joinNL c0.srcParas ∧
    c0.charEnd = c0.charStart + c0.fullText.length ∧
    c0.charEnd ≤ (joinNL processed).length ∧
    seg (joinNL processed) c0.charStart c0.charEnd = c0.fullText := by
  obtain ⟨hA, hB, hC, hE⟩ := h
  refine ⟨by rw [hsp]; exact hcur, by rw [hft, hsp], hce, ?_, ?_⟩
  · by_cases hne : st.chunks = []
    · have hX : allParas st.chunks = [] := by rw [hne]; rfl
      have hoff : st.charOffset = 0 := by
        rw [hC, hne]
        simp [allParas, joinNL]
      have hpr : processed = st.curParas := by
        rw [← hA, hX]
        simp
      rw [hce, hcs, hoff, hft, hpr]
      simp
    · have hX := allParas_ne_nil hne (fun c hc => (hB c hc).1)
      have hpr : processed = allParas st.chunks ++ st.curParas := hA.symm
      rw [hce, hcs, hft, hC, if_neg hne, hpr,
        joinNL_append_length (allParas st.chunks) st.curParas hX hcur]
  · by_cases hne : st.chunks = []
    · have hX : allParas st.chunks = [] := by rw [hne]; rfl
      have hoff : st.charOffset = 0 := by
        rw [hC, hne]
        simp [allParas, joinNL]
      have hpr : processed = st.curParas := by
        rw [← hA, hX]
        simp
      rw [hce, hcs, hoff, hft, hpr]
      simpa using seg_zero_len (joinNL st.curParas)
    · have hX := allParas_ne_nil hne (fun c hc => (hB c hc).1)
      have hpr : processed = allParas st.chunks ++ st.curParas := hA.symm
      rw [hce, hcs, hft, hC, if_neg hne, hpr]
      exact seg_append_block (allParas st.chunks) st.curParas hX hcur

theorem emitSplit_charOffset (P : ChunkerP) (meta : DocMeta) (header : Str)
    (st : ChunkState) (forced : Bool) :
    (emitSplit P meta header st forced).charOffset =
      st.charOffset + (buildEmit header st.chunks.isEmpty st.curParas).1.length + 1 := by
  unfold emitSplit
  by_cases h : P.cfg.enableOverlap <;> simp [h]

theorem C4Inv_updateTracking (processed : List Str) (st : ChunkState) (pt : String)
    (an : Option Str) (pn : List Str) (h : C4Inv processed st) :
    C4Inv processed (updateTracking st pt an pn) := by
  unfold updateTracking
  split_ifs <;> exact h

theorem C4Inv_emitSplit (P : ChunkerP) (meta : DocMeta) (st : ChunkState) (forced : Bool)
    (processed : List Str) (hov : P.cfg.enableOverlap = false)
    (hcur : st.curParas ≠ []) (h : C4Inv processed st) :
    C4Inv processed (emitSplit P meta [] st forced) := by
  obtain ⟨hA, hB, hC, hE⟩ := h
  have hbe := buildEmit_nil_header st.chunks.isEmpty st.curParas
  set c0 := create_chunk_metadata P.tc meta st.chunks.length
    (buildEmit [] st.chunks.isEmpty st.curParas).1 st.curType st.curArticle
    st.curParaNums st.charOffset (some (buildEmit [] st.chunks.isEmpty st.curParas).2)
    st.curParas forced with hc0
  have hft : c0.fullText = joinNL st.curParas := by
    rw [hc0]
    show (buildEmit [] st.chunks.isEmpty st.curParas).1 = joinNL st.curParas
    rw [hbe]
  have hsp : c0.srcParas = st.curParas := rfl
  have hcs : c0.charStart = st.charOffset := rfl
  have hce : c0.charEnd = c0.charStart + c0.fullText.length := rfl
  have hc0facts := C4Inv_emit_chunk st processed ⟨hA, hB, hC, hE⟩ hcur c0 hft hsp
    hcs hce
  have hnewA : allParas (st.chunks ++ [c0]) = processed := by
    rw [allParas_append, allParas_singleton, hsp, hA]
  refine ⟨?_, ?_, ?_, ?_⟩
  · rw [emitSplit_chunks, emitSplit_curParas_no_overlap P meta [] st forced hov, ← hc0,
      hnewA]
    simp
  · intro c hc
    rw [emitSplit_chunks, ← hc0] at hc
    rcases List.mem_append.mp hc with h1 | h1
    · exact hB c h1
    · rcases List.mem_singleton.mp h1 with rfl
      exact hc0facts
  · rw [emitSplit_charOffset, emitSplit_chunks, ← hc0,
      if_neg (by simp : ¬st.chunks ++ [c0] = []), hnewA]
    rw [show (buildEmit [] st.chunks.isEmpty st.curParas).1 = joinNL st.curParas from
      by rw [hbe]]
    have hlenJ : (joinNL processed).length =
        st.charOffset + (joinNL st.curParas).length := by
      by_cases hne : st.chunks = []
      · have hX : allParas st.chunks = [] := by rw [hne]; rfl
        have hoff : st.charOffset = 0 := by
          rw [hC, hne]
          simp [allParas, joinNL]
        have hpr : processed = st.curParas := by rw [← hA, hX]; simp
        rw [hoff, hpr]
        simp
      · have hX := allParas_ne_nil hne (fun c hc => (hB c hc).1)
        have hpr : processed = allParas st.chunks ++ st.curParas := hA.symm
        rw [hpr, joinNL_append_length (allParas st.chunks) st.curParas hX hcur, hC,
          if_neg hne]
    omega
  · intro _
    rw [emitSplit_charOffset, emitSplit_chunks, ← hc0]
    have hlast : (st.chunks ++ [c0]).getLastD default = c0 := by
      rw [List.getLastD_eq_getLast?]
      simp
    rw [hlast, hce, hcs, hft]
    rw [show (buildEmit [] st.chunks.isEmpty st.curParas).1 = joinNL st.curParas from
      by rw [hbe]]

theorem C4Inv_stepSub (P : ChunkerP) (meta : DocMeta) (pt : String)
    (an : Option Str) (pn : List Str) (st : ChunkState) (p : Str) (processed : List Str)
    (hov : P.cfg.enableOverlap = false) (h : C4Inv processed st) :
    C4Inv (processed ++ [p]) (stepSub P meta [] pt an pn st p) := by
  unfold stepSub
  cases hd : splitDecision P st pt p with
  | none =>
    exact C4Inv_updateTracking _ _ pt an pn (C4Inv_extend processed p st h)
  | some forced =>
    have hcur : st.curParas ≠ [] := splitDecision_some_ne_nil P st pt p forced hd
    exact C4Inv_updateTracking _ _ pt an pn
      (C4Inv_extend processed p _ (C4Inv_emitSplit P meta st forced processed hov hcur h))

theorem seg_to_end (doc : Str) (n : Nat) : seg doc n doc.length = doc.drop n := by
  unfold seg
  rw [List.take_length]

/-- The merged chunk's slice of the document equals its merged text. -/
theorem C4_merged_seg (P : ChunkerP) (st : ChunkState) (paras : List Str)
    (h : C4Inv paras st) (hcur : st.curParas ≠ []) (hne : st.chunks ≠ []) :
    seg (joinNL paras) (mergedChunk P [] st (st.chunks.getLastD default)).charStart
        (mergedChunk P [] st (st.chunks.getLastD default)).charEnd =
      (mergedChunk P [] st (st.chunks.getLastD default)).fullText := by
  obtain ⟨hA, hB, hC, hE⟩ := h
  set prev := st.chunks.getLastD default with hprevdef
  have hprevmem : prev ∈ st.chunks := getLastD_mem_of_ne_nil hne
  obtain ⟨p1, p2, p3, p4, p5⟩ := hB prev hprevmem
  have hX := allParas_ne_nil hne (fun c hc => (hB c hc).1)
  have hbe := buildEmit_nil_header st.chunks.isEmpty st.curParas
  have hdoc : joinNL paras =
      joinNL (allParas st.chunks) ++ '\n' :: joinNL st.curParas := by
    rw [← hA]
    exact joinNL_append _ _ hX hcur
  have hoff : st.charOffset = (joinNL (allParas st.chunks)).length + 1 := by
    rw [hC, if_neg hne]
  have hprevce : prev.charEnd = (joinNL (allParas st.chunks)).length := by
    have := hE hne
    omega
  have hcsle : prev.charStart ≤ (joinNL (allParas st.chunks)).length := by
    omega
  have hprevft : prev.fullText = (joinNL (allParas st.chunks)).drop prev.charStart := by
    have h5 := p5
    rw [hdoc] at h5
    unfold seg at h5
    rw [hprevce] at h5
    rw [show (joinNL (allParas st.chunks) ++ '\n' :: joinNL st.curParas).take
          (joinNL (allParas st.chunks)).length = joinNL (allParas st.chunks) from
      List.take_left _ _] at h5
    exact h5.symm
  have hmft : (mergedChunk P [] st prev).fullText =
      prev.fullText ++ '\n' :: joinNL st.curParas := by
    show prev.fullText ++ '\n' :: (buildEmit [] st.chunks.isEmpty st.curParas).1 = _
    rw [hbe]
  have hmcs : (mergedChunk P [] st prev).charStart = prev.charStart := rfl
  have hmce : (mergedChunk P [] st prev).charEnd =
      st.charOffset + (joinNL st.curParas).length := by
    show st.charOffset + (buildEmit [] st.chunks.isEmpty st.curParas).1.length = _
    rw [hbe]
  have hdoclen : (joinNL paras).length =
      (joinNL (allParas st.chunks)).length + 1 + (joinNL st.curParas).length := by
    rw [hdoc]
    simp
    omega
  rw [hmft, hmcs, hmce]
  rw [show st.charOffset + (joinNL st.curParas).length = (joinNL paras).length from by
    rw [hdoclen, hoff]]
  rw [seg_to_end]
  rw [hdoc, List.drop_append_of_le_length hcsle, ← hprevft]

theorem C4_finalize (P : ChunkerP) (meta : DocMeta) (st : ChunkState) (paras : List Str)
    (h : C4Inv paras st) :
    ∀ c ∈ finalizeChunks P meta [] st,
      seg (joinNL paras) c.charStart c.charEnd = c.fullText := by
  intro c hc
  have hB := h.2.1
  have hnormalWF : st.curParas ≠ [] →
      seg (joinNL paras) (finalNormalChunk P meta [] st).charStart
        (finalNormalChunk P meta [] st).charEnd = (finalNormalChunk P meta [] st).fullText := by
    intro hcur
    have hbe := buildEmit_nil_header st.chunks.isEmpty st.curParas
    have hft : (finalNormalChunk P meta [] st).fullText = joinNL st.curParas := by
      show (buildEmit [] st.chunks.isEmpty st.curParas).1 = joinNL st.curParas
      rw [hbe]
    exact (C4Inv_emit_chunk st paras h hcur (finalNormalChunk P meta [] st) hft rfl rfl
      rfl).2.2.2.2
  unfold finalizeChunks at hc
  split at hc
  · exact (hB c hc).2.2.2.2
  · rename_i hcur
    split at hc
    · rename_i hm
      split at hc
      · rcases List.mem_append.mp hc with h1 | h1
        · exact (hB c (mem_of_mem_dropLast h1)).2.2.2.2
        · rcases List.mem_singleton.mp h1 with rfl
          exact C4_merged_seg P st paras h hcur hm.2.1
      · rcases List.mem_append.mp hc with h1 | h1
        · exact (hB c h1).2.2.2.2
        · rcases List.mem_singleton.mp h1 with rfl
          exact hnormalWF hcur
    · rcases List.mem_append.mp hc with h1 | h1
      · exact (hB c h1).2.2.2.2
      · rcases List.mem_singleton.mp h1 with rfl
        exact hnormalWF hcur

/-- C4 (amended).  When no header is injected (`header = []`), overlap is disabled and
no paragraph exceeds the sentence-splitting ceiling, every emitted chunk's
`char_start`/`char_end` are character offsets into the parent document's `full_text`
(`"\n".join(paragraphs)`): the document text restricted to `[char_start, char_end)`
equals the chunk's text. -/
theorem char_offsets_amended (P : ChunkerP) (meta : DocMeta) (paras : List Str)
    (hov : P.cfg.enableOverlap = false)
    (hsmall : ∀ p ∈ paras, P.tc p ≤ P.cfg.maxParaTokens)
    (c : Chunk) (hc : c ∈ chunk_document P meta [] paras) :
    seg (joinNL paras) c.charStart c.charEnd = c.fullText := by
  unfold chunk_document at hc
  have hinv : C4Inv paras (paras.foldl (stepPara P meta []) initState) := by
    have := foldl_inv_pre (stepPara P meta [])
      (fun p => P.tc p ≤ P.cfg.maxParaTokens) C4Inv
      (fun pre s a ha hs => by
        rw [stepPara_eq_of_small P meta [] s a (by omega)]
        exact C4Inv_stepSub P meta _ _ _ s a pre hov hs)
      paras [] initState hsmall ?_
    · simpa using this
    · refine ⟨by simp [allParas, initState], ?_, by simp [allParas, initState, joinNL], ?_⟩
      · intro c hc
        simp [initState] at hc
      · intro hne
        simp [initState] at hne
  exact C4_finalize P meta _ paras hinv c hc

/- ======================================================================
C10: only article-classified paragraphs ever set `article_number`.
====================================================================== -/

theorem updateTracking_curArticle_of_ne (st : ChunkState) (pt : String)
    (an : Option Str) (pn : List Str) (h : pt ≠ "article") :
    (updateTracking st pt an pn).curArticle = st.curArticle := by
  unfold updateTracking
  rw [if_neg (by intro hx; exact h hx.1)]
  split_ifs <;> rfl

/-- The fold invariant: no article context has ever been recorded. -/
def C10Inv (st : ChunkState) : Prop :=
  st.curArticle = none ∧ ∀ c ∈ st.chunks, c.articleNumber = none

theorem create_chunk_metadata_articleNumber (tc : Str → Nat) (meta : DocMeta) (cid : Nat)
    (text : Str) (ctype : String) (art : Option Str) (nums : List Str) (cs : Nat)
    (idx : Option (List (Nat × Nat))) (paras : List Str) (forced : Bool) :
    (create_chunk_metadata tc meta cid text ctype art nums cs idx paras forced).articleNumber =
      art := rfl

theorem emitSplit_curArticle (P : ChunkerP) (meta : DocMeta) (header : Str)
    (st : ChunkState) (forced : Bool) :
    (emitSplit P meta header st forced).curArticle = st.curArticle := by
  unfold emitSplit
  by_cases h : P.cfg.enableOverlap <;> simp [h]

theorem C10Inv_stepSub (P : ChunkerP) (meta : DocMeta) (header : Str) (pt : String)
    (an : Option Str) (pn : List Str) (st : ChunkState) (p : Str)
    (hpt : pt ≠ "article") (h : C10Inv st) : C10Inv (stepSub P meta header pt an pn st p) := by
  unfold stepSub
  cases hd : splitDecision P st pt p with
  | none =>
    constructor
    · rw [updateTracking_curArticle_of_ne _ pt an pn hpt]
      exact h.1
    · intro c hc
      rw [updateTracking_chunks] at hc
      exact h.2 c hc
  | some forced =>
    constructor
    · rw [updateTracking_curArticle_of_ne _ pt an pn hpt]
      show (emitSplit P meta header st forced).curArticle = none
      rw [emitSplit_curArticle]
      exact h.1
    · intro c hc
      rw [updateTracking_chunks] at hc
      rw [emitSplit_chunks] at hc
      rcases List.mem_append.mp hc with h1 | h1
      · exact h.2 c h1
      · rcases List.mem_singleton.mp h1 with rfl
        rw [create_chunk_metadata_articleNumber]
        exact h.1

theorem C10Inv_stepPara (P : ChunkerP) (meta : DocMeta) (header : Str) (st : ChunkState)
    (p : Str) (hp : (detect_boundary P.articleP P.recitalP P.sectionP p).1 ≠ "article")
    (h : C10Inv st) : C10Inv (stepPara P meta header st p) := by
  unfold stepPara
  exact foldl_inv _ (fun _ => True) C10Inv
    (fun s a _ hs => C10Inv_stepSub P meta header _ _ _ s a hp hs) _ st
    (fun _ _ => trivial) h

theorem C10Inv_finalize (P : ChunkerP) (meta : DocMeta) (header : Str) (st : ChunkState)
    (h : C10Inv st) : ∀ c ∈ finalizeChunks P meta header st, c.articleNumber = none := by
  intro c hc
  unfold finalizeChunks at hc
  split at hc
  · exact h.2 c hc
  · have hnormal : c ∈ st.chunks ++ [finalNormalChunk P meta header st] →
        c.articleNumber = none := by
      intro hm
      rcases List.mem_append.mp hm with h1 | h1
      · exact h.2 c h1
      · rcases List.mem_singleton.mp h1 with rfl
        show st.curArticle = none
        exact h.1
    split at hc
    · rename_i hm
      split at hc
      · rcases List.mem_append.mp hc with h1 | h1
        · exact h.2 c (mem_of_mem_dropLast h1)
        · rcases List.mem_singleton.mp h1 with rfl
          show (st.chunks.getLastD default).articleNumber = none
          exact h.2 _ (getLastD_mem_of_ne_nil hm.2.1)
      · exact hnormal hc
    · exact hnormal hc

/-- C10: for documents with no article-classified paragraph every chunk has
`article_number = None`. -/
theorem article_number_none_of_no_articles (P : ChunkerP) (meta : DocMeta) (header : Str)
    (paras : List Str)
    (hnoart : ∀ p ∈ paras, (detect_boundary P.articleP P.recitalP P.sectionP p).1 ≠ "article")
    (c : Chunk) (hc : c ∈ chunk_document P meta header paras) : c.articleNumber = none := by
  unfold chunk_document at hc
  have hinv : C10Inv (paras.foldl (stepPara P meta header) initState) := by
    refine foldl_inv (stepPara P meta header)
      (fun p => (detect_boundary P.articleP P.recitalP P.sectionP p).1 ≠ "article") C10Inv
      (fun s a ha hs => C10Inv_stepPara P meta header s a ha hs) paras initState hnoart ?_
    constructor
    · rfl
    · intro c hc
      simp [initState] at hc
  exact C10Inv_finalize P meta header _ hinv c hc

/- ======================================================================
C5: the overlap computation.
====================================================================== -/

theorem overlapGo_sublist (tc : Str → Nat) (target : Nat) :
    ∀ (rev acc : List Str) (tokens : Nat),
      List.Sublist (overlapGo tc target rev acc tokens) (rev.reverse ++ acc) := by
  intro rev
  induction rev with
  | nil =>
    intro acc tokens
    simp [overlapGo]
  | cons p rest ih =>
    intro acc tokens
    have hskip : List.Sublist (rest.reverse ++ acc) ((p :: rest).reverse ++ acc) := by
      rw [List.reverse_cons, List.append_assoc]
      exact List.Sublist.append_left (List.sublist_cons_self p acc) rest.reverse
    have hins : (p :: rest).reverse ++ acc = rest.reverse ++ (p :: acc) := by
      rw [List.reverse_cons, List.append_assoc]
      rfl
    unfold overlapGo
    simp only []
    split_ifs with h1 h2 h3
    · exact (ih acc tokens).trans hskip
    · rw [hins]
      exact (List.sublist_cons_self p acc).trans
        (List.sublist_append_right rest.reverse (p :: acc))
    · rw [hins]
      exact List.sublist_append_right rest.reverse (p :: acc)
    · rw [hins]
      exact ih (p :: acc) (tokens + tc p)

theorem overlapGo_boundary (tc : Str → Nat) (target : Nat) :
    ∀ (rev acc : List Str) (tokens : Nat),
      (∀ x ∈ acc, ends_at_sentence_boundary x = true) →
      ∀ x ∈ overlapGo tc target rev acc tokens, ends_at_sentence_boundary x = true := by
  intro rev
  induction rev with
  | nil =>
    intro acc tokens hacc
    simpa [overlapGo] using hacc
  | cons p rest ih =>
    intro acc tokens hacc
    unfold overlapGo
    simp only []
    split_ifs with h1 h2 h3
    · exact ih acc tokens hacc
    · exact hacc
    · intro x hx
      rcases List.mem_cons.mp hx with rfl | hx2
      · simpa using h1
      · exact hacc x hx2
    · refine ih (p :: acc) (tokens + tc p) ?_
      intro x hx
      rcases List.mem_cons.mp hx with rfl | hx2
      · simpa using h1
      · exact hacc x hx2

theorem overlapGo_tokens (tc : Str → Nat) (target : Nat) :
    ∀ (rev acc : List Str) (tokens : Nat),
      tokens = (acc.map tc).sum →
      (acc.length ≤ 1 ∨ 2 * tokens ≤ 3 * target) →
      ((overlapGo tc target rev acc tokens).length ≤ 1 ∨
        2 * ((overlapGo tc target rev acc tokens).map tc).sum ≤ 3 * target) := by
  intro rev
  induction rev with
  | nil =>
    intro acc tokens hsum hinv
    rw [show overlapGo tc target [] acc tokens = acc from rfl]
    rcases hinv with h | h
    · exact Or.inl h
    · rw [← hsum]
      exact Or.inr h
  | cons p rest ih =>
    intro acc tokens hsum hinv
    unfold overlapGo
    simp only []
    split_ifs with h1 h2 h3
    · exact ih acc tokens hsum hinv
    · rcases hinv with h | h
      · exact Or.inl h
      · rw [← hsum]
        exact Or.inr h
    · -- inserted and stopped at the 80% threshold
      by_cases hacc : acc.isEmpty
      · left
        have : acc = [] := by
          cases acc with
          | nil => rfl
          | cons a t => simp at hacc
        rw [this]
        simp
      · right
        have hle : 2 * (tokens + tc p) ≤ 3 * target := by
          rcases Decidable.em (2 * (tokens + tc p) > 3 * target) with hx | hx
          · exact absurd ⟨hx, by simpa using hacc⟩ h2
          · omega
        rw [List.map_cons, List.sum_cons, ← hsum]
        omega
    · -- inserted and continuing
      refine ih (p :: acc) (tokens + tc p) ?_ ?_
      · rw [List.map_cons, List.sum_cons, ← hsum]
        omega
      · by_cases hacc : acc.isEmpty
        · left
          have : acc = [] := by
            cases acc with
            | nil => rfl
            | cons a t => simp at hacc
          rw [this]
          simp
        · right
          rcases Decidable.em (2 * (tokens + tc p) > 3 * target) with hx | hx
          · exact absurd ⟨hx, by simpa using hacc⟩ h2
          · omega

theorem calculate_overlap_sublist (tc : Str → Nat) (paras : List Str) (target : Nat) :
    List.Sublist (calculate_overlap tc paras target) paras := by
  unfold calculate_overlap
  split_ifs with h
  · exact List.nil_sublist paras
  · have := overlapGo_sublist tc target paras.reverse [] 0
    simpa using this

theorem calculate_overlap_boundary (tc : Str → Nat) (paras : List Str) (target : Nat)
    (x : Str) (hx : x ∈ calculate_overlap tc paras target) :
    ends_at_sentence_boundary x = true := by
  unfold calculate_overlap at hx
  split_ifs at hx with h
  · simp at hx
  · exact overlapGo_boundary tc target paras.reverse [] 0 (by intro y hy; simp at hy) x hx

theorem calculate_overlap_tokens (tc : Str → Nat) (paras : List Str) (target : Nat) :
    (calculate_overlap tc paras target).length ≤ 1 ∨
      2 * ((calculate_overlap tc paras target).map tc).sum ≤ 3 * target := by
  unfold calculate_overlap
  split_ifs with h
  · left
    simp
  · exact overlapGo_tokens tc target paras.reverse [] 0 (by simp) (by left; simp)

theorem emitSplit_curParas_eq (P : ChunkerP) (meta : DocMeta) (header : Str)
    (st : ChunkState) (forced : Bool) :
    (emitSplit P meta header st forced).curParas =
      if P.cfg.enableOverlap = true then
        calculate_overlap P.tc st.curParas P.cfg.overlapTokens
      else [] := by
  unfold emitSplit
  by_cases h : P.cfg.enableOverlap <;> simp [h]

/- ======================================================================
C6: boundary classification priority (first matching rule wins).
====================================================================== -/

/-- A classification rule: a predicate and the result it produces. -/
def BoundaryRule := (Str → Bool) × (Str → String × Option Str × List Str)

/-- First-matching-rule evaluation, the spec's formulation of §4.3: the rules are
tried in order and the first whose predicate holds decides; the default is a plain
paragraph. -/
def firstRule : List BoundaryRule → Str → String × Option Str × List Str
  | [], _ => ("paragraph", none, [])
  | r :: rest, p => if r.1 p then r.2 p else firstRule rest p

/-- The rules of `detect_boundary`, in source order: Finnish chapter, Finnish
section, configured article, configured recital, framework section, configured
generic section. -/
def boundaryRuleList (aP rP sP : Str → Bool) : List BoundaryRule :=
  [(finnishChapterMatch, fun _ => ("chapter", none, [])),
   (finnishSectionMatch, fun p =>
     ("section", (firstDigitRun p).map (fun d => d ++ [' ', '§']), [])),
   (aP, fun p => ("article", searchArticleNum p, [])),
   (rP, fun p =>
     match searchRecitalNum p with
     | some d => ("recital", none, [('(' :: d) ++ [')']])
     | none => ("recital", none, [])),
   (frameworkSectionMatch, fun _ => ("section", none, [])),
   (sP, fun _ => ("section", none, []))]

/-- `detect_boundary` is exactly first-matching-rule evaluation of its rule list. -/
theorem detect_boundary_eq_firstRule (aP rP sP : Str → Bool) (p : Str) :
    detect_boundary aP rP sP p = firstRule (boundaryRuleList aP rP sP) p := rfl

/- ======================================================================
C7, C8, C9: metadata extraction and token counting.
====================================================================== -/

/-- The document-level metadata computed once per document in `chunk_document`
(lines 660-666): regulation name, year, document type, regulation references. -/
def extract_document_metadata (doc : DocumentInfo) :
    Str × Option Nat × Str × List Str :=
  let firstText :=
    if doc.sourceType = "national_law" then joinNL (doc.paragraphs.take 20)
    else doc.paragraphs.headD []
  (extract_regulation_name firstText doc.sourceType,
   extract_year firstText doc.filename,
   extract_doc_type firstText doc.sourceType,
   extract_regulation_refs (docFullText doc))

/-- C9: the metadata extractors are pure functions of their inputs — two invocations
on the same `DocumentInfo` (or on the same raw text) are identical.  In this
embedding every extractor is a mathematical function, so determinism and
statelessness hold definitionally. -/
theorem metadata_extraction_idempotent (doc : DocumentInfo) :
    extract_document_metadata doc = extract_document_metadata doc ∧
    (∀ t : Str, ∀ s : String, extract_regulation_name t s = extract_regulation_name t s) ∧
    (∀ t f : Str, extract_year t f = extract_year t f) ∧
    (∀ t : Str, ∀ s : String, extract_doc_type t s = extract_doc_type t s) ∧
    (∀ t : Str, extract_regulation_refs t = extract_regulation_refs t) :=
  ⟨rfl, fun _ _ => rfl, fun _ _ => rfl, fun _ _ => rfl, fun _ => rfl⟩

/-- C8: `count_tokens` is total (it returns a value for every input — the Lean
function cannot raise) and follows the documented fallback scheme: the character
estimate `len // 4` for over-long texts and for encoder failure, the encoder's exact
count otherwise. -/
theorem count_tokens_fallback_spec :
    (∀ (enc : Str → Option Nat) (text : Str), text.length > 50000 →
      count_tokens enc text = text.length / 4) ∧
    (∀ (enc : Str → Option Nat) (text : Str), enc text = none →
      count_tokens enc text = text.length / 4) ∧
    (∀ (enc : Str → Option Nat) (text : Str) (n : Nat), text.length ≤ 50000 →
      enc text = some n → count_tokens enc text = n) := by
  refine ⟨?_, ?_, ?_⟩
  · intro enc text h
    unfold count_tokens
    rw [if_pos h]
  · intro enc text h
    unfold count_tokens
    split_ifs with h1
    · rfl
    · rw [h]
  · intro enc text n h1 h2
    unfold count_tokens
    rw [if_neg (by omega), h2]

/- ======================================================================
Concrete instances used by witnesses and counterexamples.
====================================================================== -/

/-- A concrete token counter: one token per character (a possible encoder
behaviour; the real cl100k encoder is external to the repository). -/
def tcLen : Str → Nat := List.length

/-- A concrete token counter that never counts newline characters; it is additive
across newline joins. -/
def tcNN : Str → Nat := fun s => (s.filter (fun c => c ≠ '\n')).length

theorem tcNN_add (a b : Str) : tcNN (a ++ '\n' :: b) = tcNN a + tcNN b := by
  unfold tcNN
  rw [List.filter_append, List.filter_cons]
  simp

/-- An encoder that always fails (raises). -/
def encNone : Str → Option Nat := fun _ => none

def m0 : DocMeta :=
  { documentId := [], filename := [], regulationName := [], year := none,
    docType := [], regulationRefs := [], language := "en",
    sourceType := "eu_legislation" }

def cfg1 : ChunkCfg :=
  { enableOverlap := false, overlapTokens := 200, keepRelated := true,
    maxParaTokens := 1000, chunkTargetTokens := 100, minChunkTokens := 1,
    maxChunkTokens := 20, mergeOrphans := false, orphanThreshold := 0 }

def P1 : ChunkerP :=
  { articleP := specArticleP, recitalP := specRecitalP, sectionP := specSectionP,
    tc := tcLen, cfg := cfg1 }

/-- A 3-paragraph document: a sentence, a short continuation cue paragraph kept with
it by the cohesion override, then an article heading that triggers a boundary
split. -/
def doc1 : List Str := [chars "Aaaaaaaaaaaaaaa.", chars "However", chars "Article 5"]

def cfg2 : ChunkCfg :=
  { enableOverlap := false, overlapTokens := 200, keepRelated := true,
    maxParaTokens := 1000, chunkTargetTokens := 1000, minChunkTokens := 1000,
    maxChunkTokens := 1000, mergeOrphans := false, orphanThreshold := 0 }

def P2 : ChunkerP :=
  { articleP := specArticleP, recitalP := specRecitalP, sectionP := specSectionP,
    tc := tcLen, cfg := cfg2 }

def cfgOv : ChunkCfg :=
  { enableOverlap := true, overlapTokens := 4, keepRelated := true,
    maxParaTokens := 1000, chunkTargetTokens := 100, minChunkTokens := 1,
    maxChunkTokens := 10, mergeOrphans := false, orphanThreshold := 0 }

def POv : ChunkerP :=
  { articleP := specArticleP, recitalP := specRecitalP, sectionP := specSectionP,
    tc := tcLen, cfg := cfgOv }

def docOv : List Str := [chars "One.", chars "Two.", chars "Three."]

def cfgW : ChunkCfg :=
  { enableOverlap := false, overlapTokens := 200, keepRelated := true,
    maxParaTokens := 100, chunkTargetTokens := 50, minChunkTokens := 1,
    maxChunkTokens := 100, mergeOrphans := true, orphanThreshold := 5 }

def PW : ChunkerP :=
  { articleP := specArticleP, recitalP := specRecitalP, sectionP := specSectionP,
    tc := tcNN, cfg := cfgW }

def docW : List Str := [chars "Hi.", chars "There."]

/-- A document whose computed header is non-empty: the regulation-name fallback
returns the first substantial line, which then forms the injected header. -/
def docHdr : DocumentInfo :=
  { documentId := chars "d", filename := chars "f.json",
    paragraphs := [chars "General Data Protection Regulation Text"],
    sourceType := "eu_legislation", language := "en" }

def docC6a : List Str := [chars "Article 7", chars "Hello."]

def docC6b : List Str := [chars "Article 7", chars "Article 8"]

def docC10 : List Str := [chars "1 §", chars "Hello."]

/- ======================================================================
Claim theorems, counterexamples and witnesses.
====================================================================== -/

/-- C1 witness: the reconstruction invariant at a concrete run. -/
theorem chunk_reconstruction_witness :
    (chunk_document P1 m0 [] doc1).headD default ∈ chunk_document P1 m0 [] doc1 ∧
    ((chunk_document P1 m0 [] doc1).headD default).paragraphIndices.map
        (fun q => seg ((chunk_document P1 m0 [] doc1).headD default).fullText q.1 q.2) =
      ((chunk_document P1 m0 [] doc1).headD default).srcParas :=
  ⟨by decide, chunk_reconstruction P1 m0 [] doc1 _ (by decide)⟩

/-- C2 counterexample: the first chunk of `doc1` is grown past `max_chunk_tokens`
by the cohesion override (keeping the "However" continuation) but is then emitted
by the *boundary-split* rule at "Article 5" — it is neither a forced
cohesion-override split nor an orphan merge, yet its `token_count` (24) exceeds
`max_chunk_tokens` (20). -/
theorem token_bound_cex :
    (chunk_document P1 m0 [] doc1).map Chunk.emitForced = [false, false] ∧
    (chunk_document P1 m0 [] doc1).map Chunk.emitMerged = [false, false] ∧
    (chunk_document P1 m0 [] doc1).map Chunk.tokenCount = [24, 9] ∧
    P1.cfg.maxChunkTokens = 20 := by decide

/-- C2 witness for the amended bound. -/
theorem token_bound_amended_witness :
    PW.cfg.keepRelated = true ∧ PW.cfg.enableOverlap = false ∧
    (∀ a b, PW.tc (a ++ '\n' :: b) = PW.tc a + PW.tc b) ∧
    (∀ p ∈ docW, PW.tc p ≤ PW.cfg.maxChunkTokens ∧ PW.tc p ≤ PW.cfg.maxParaTokens) ∧
    5 * ((chunk_document PW m0 [] docW).headD default).tokenCount ≤
      6 * PW.cfg.maxChunkTokens :=
  ⟨rfl, rfl, tcNN_add, by decide,
    token_bound_amended PW m0 docW rfl rfl tcNN_add (by decide) _ (by decide)⟩

/-- C3 counterexample: with overlap enabled, the overlap paragraphs are duplicated,
so the concatenation of all chunks' constituent paragraphs is *not* the original
paragraph sequence. -/
theorem no_paragraph_loss_cex :
    allParas (chunk_document POv m0 [] docOv) =
      [chars "One.", chars "Two.", chars "Two.", chars "Three."] ∧
    allParas (chunk_document POv m0 [] docOv) ≠ docOv := by decide

/-- C3 witness for the amended statement. -/
theorem no_paragraph_loss_witness :
    P1.cfg.enableOverlap = false ∧ (∀ p ∈ doc1, P1.tc p ≤ P1.cfg.maxParaTokens) ∧
    allParas (chunk_document P1 m0 [] doc1) = doc1 :=
  ⟨rfl, by decide, no_paragraph_loss_amended P1 m0 [] doc1 rfl (by decide)⟩

/-- C4 counterexample: the injected document header is part of the first chunk's
`full_text` and of the `char_offset` arithmetic, but not of the document's
`full_text`, so the claimed slice equality fails on a document with a non-empty
header. -/
theorem char_offsets_cex :
    seg (docFullText docHdr) ((chunk_document_of P2 docHdr).headD default).charStart
        ((chunk_document_of P2 docHdr).headD default).charEnd ≠
      ((chunk_document_of P2 docHdr).headD default).fullText ∧
    ((chunk_document_of P2 docHdr).headD default).charStart = 0 ∧
    ((chunk_document_of P2 docHdr).headD default).charEnd = 80 ∧
    (docFullText docHdr).length = 39 := by decide

/-- C4 witness for the amended statement. -/
theorem char_offsets_witness :
    P1.cfg.enableOverlap = false ∧ (∀ p ∈ doc1, P1.tc p ≤ P1.cfg.maxParaTokens) ∧
    seg (joinNL doc1) ((chunk_document P1 m0 [] doc1).headD default).charStart
        ((chunk_document P1 m0 [] doc1).headD default).charEnd =
      ((chunk_document P1 m0 [] doc1).headD default).fullText :=
  ⟨rfl, by decide, char_offsets_amended P1 m0 doc1 rfl (by decide) _ (by decide)⟩

/-- C5 counterexample: `calculate_overlap` *skips* a final paragraph that does not
end at a sentence boundary and keeps walking backward, so its result is not a
contiguous suffix of the chunk's paragraphs. -/
theorem overlap_suffix_cex :
    calculate_overlap tcLen [chars "Ok.", chars "x,"] 5 = [chars "Ok."] ∧
    ¬List.IsSuffix [chars "Ok."] [chars "Ok.", chars "x,"] := by decide

/-- C5 (amended).  The overlap paragraphs are an order-preserving subsequence of the
just-emitted chunk's paragraphs (not necessarily a contiguous suffix), each ending at
a sentence boundary; unless a single paragraph was taken, the accumulated token total
stays within 150% of the target; and on each split the new buffer is exactly
`calculate_overlap`'s result when overlap is enabled and empty otherwise. -/
theorem overlap_amended :
    (∀ (tc : Str → Nat) (paras : List Str) (target : Nat),
      List.Sublist (calculate_overlap tc paras target) paras) ∧
    (∀ (tc : Str → Nat) (paras : List Str) (target : Nat) (x : Str),
      x ∈ calculate_overlap tc paras target → ends_at_sentence_boundary x = true) ∧
    (∀ (tc : Str → Nat) (paras : List Str) (target : Nat),
      (calculate_overlap tc paras target).length ≤ 1 ∨
        2 * ((calculate_overlap tc paras target).map tc).sum ≤ 3 * target) ∧
    (∀ (P : ChunkerP) (meta : DocMeta) (header : Str) (st : ChunkState) (forced : Bool),
      (emitSplit P meta header st forced).curParas =
        if P.cfg.enableOverlap = true then
          calculate_overlap P.tc st.curParas P.cfg.overlapTokens
        else []) :=
  ⟨calculate_overlap_sublist, calculate_overlap_boundary, calculate_overlap_tokens,
    emitSplit_curParas_eq⟩

/-- C5 witness. -/
theorem overlap_amended_witness :
    (chars "Ok.") ∈ calculate_overlap tcLen [chars "Ok.", chars "x,"] 5 ∧
    ends_at_sentence_boundary (chars "Ok.") = true :=
  ⟨by decide, overlap_amended.2.1 tcLen [chars "Ok.", chars "x,"] 5 (chars "Ok.")
    (by decide)⟩

/-- C6 counterexample: a chunk *containing* an "Article 7" paragraph need not carry
`article_number == "7"` — a later article boundary in the same chunk overwrites the
running context ("Article 8" here). -/
theorem boundary_correctness_cex :
    (chars "Article 7") ∈ ((chunk_document P2 m0 [] docC6b).headD default).srcParas ∧
    ((chunk_document P2 m0 [] docC6b).headD default).chunkType = "article" ∧
    ((chunk_document P2 m0 [] docC6b).headD default).articleNumber ≠ some (chars "7") ∧
    ((chunk_document P2 m0 [] docC6b).headD default).articleNumber = some (chars "8") ∧
    (chunk_document P2 m0 [] docC6b).length = 1 := by decide

/-- C6 (amended).  `detect_boundary` is first-matching-rule classification in the
priority order Finnish chapter → Finnish section → article → recital →
framework/section → default; a paragraph matching "Article 7" classifies as
`("article", "7", [])`; and in a document whose other paragraphs are plain
paragraphs, the chunk containing it carries `chunk_type = "article"` and
`article_number = "7"` (a later boundary in the same chunk can override both, see
the counterexample). -/
theorem boundary_correctness_amended :
    (∀ (aP rP sP : Str → Bool) (p : Str),
      detect_boundary aP rP sP p = firstRule (boundaryRuleList aP rP sP) p) ∧
    detect_boundary specArticleP specRecitalP specSectionP (chars "Article 7") =
      ("article", some (chars "7"), []) ∧
    (chunk_document P2 m0 [] docC6a).map (fun c => (c.chunkType, c.articleNumber)) =
      [("article", some (chars "7"))] :=
  ⟨detect_boundary_eq_firstRule, by decide, by decide⟩

/-- C7: `extract_year` does return the maximum year found in the text (2016 in the
GDPR citation), but the filename fallback is broken: its regex group captures only
the century prefix, so e.g. "444-2017.di.json" yields 20, not 2017 — and the
source's own comment example "444_2017.di.json" matches nothing at all (the `_` is a
word character, defeating `\b`), yielding None. -/
theorem extract_year_eval :
    extract_year
        (chars "Regulation (EU) 2016/679 of the European Parliament amending Directive 95/46/EC")
        [] = some 2016 ∧
    extract_year (chars "no year present") (chars "444-2017.di.json") = some 20 ∧
    extract_year (chars "no year present") (chars "444_2017.di.json") = none := by
  decide

/-- C8 witness: the fallback at a concrete failing encoder. -/
theorem count_tokens_fallback_witness :
    encNone (chars "abcd") = none ∧
    count_tokens encNone (chars "abcd") = (chars "abcd").length / 4 :=
  ⟨rfl, count_tokens_fallback_spec.2.1 encNone (chars "abcd") rfl⟩

/-- C10: `detect_boundary` does place a Finnish section number such as "1 §" in the
article-number slot of its result, but the chunker's running context records numbers
only from article-classified paragraphs; hence documents with no article-classified
paragraph produce only chunks with `article_number = None`. -/
theorem article_number_tracking :
    (∀ aP rP sP : Str → Bool,
      detect_boundary aP rP sP (chars "1 §") = ("section", some (chars "1 §"), [])) ∧
    (∀ (P : ChunkerP) (meta : DocMeta) (header : Str) (paras : List Str),
      (∀ p ∈ paras,
        (detect_boundary P.articleP P.recitalP P.sectionP p).1 ≠ "article") →
      ∀ c ∈ chunk_document P meta header paras, c.articleNumber = none) := by
  constructor
  · intro aP rP sP
    have h1 : finnishChapterMatch (chars "1 §") = false := by decide
    have h2 : finnishSectionMatch (chars "1 §") = true := by decide
    unfold detect_boundary
    rw [h1, h2]
    simp
    decide
  · intro P meta header paras h c hc
    exact article_number_none_of_no_articles P meta header paras h c hc

/-- C10 witness. -/
theorem article_number_tracking_witness :
    (∀ p ∈ docC10,
      (detect_boundary P2.articleP P2.recitalP P2.sectionP p).1 ≠ "article") ∧
    ((chunk_document P2 m0 [] docC10).headD default).articleNumber = none :=
  ⟨by decide, article_number_tracking.2 P2 m0 [] docC10 (by decide) _ (by decide)⟩

end PL
